import Mathlib

/-! # Libight: network buffer (`net/buffer.hpp`) and Socks5 transport (`ight/net/socks5.hpp`)

A shallow embedding of `IghtIovec`, `IghtBuffer` and `Socks5`.

`IghtIovec` and `IghtBuffer` sit on top of libevent's `evbuffer`, which is not part of the
repository.  The backend is modelled as its list of chains (each chain is the
list of bytes it currently holds); the primitives the header calls
(`evbuffer_peek`, `evbuffer_drain`, `evbuffer_add`, `evbuffer_search_eol`,
`evbuffer_reserve_space`, `evbuffer_commit_space`) follow libevent's documented
behaviour.  Whatever the backend or the allocator decides on its own (whether an
allocation succeeds, how appended bytes are laid out in chains, which extents a
reservation hands out, the random bytes) is an explicit argument, so the
results hold for each such decision.

C++ member functions that mutate `*this` return the result together with the
object after the call; a thrown exception is `Except.error`, and the object that
comes with it is the state the exception leaves behind.

`Socks5` wraps a `Connection`.  The members defined in the header are embedded as
they are, over an arbitrary behaviour of the wrapped connection.  `Connection`
and the constructor of `Socks5`, which installs the handshake, are not among the
sources; where a result needs them they follow the spec, and the definitions
that do say so.
-/

namespace Libight

/-- One byte (`char` / `uint8_t`). -/
abbrev Byte := UInt8

/-- The exceptions thrown in `buffer.hpp`; every `std::runtime_error` is named after its text. -/
inductive Error where
  /-- The exception `std::bad_alloc`. -/
  | bad_alloc
  /-- The text "Iovec is null". -/
  | iovec_is_null
  /-- The text "Invalid index". -/
  | invalid_index
  /-- The text "unexpected error". -/
  | unexpected_error
  /-- The text "evbuffer_drain failed". -/
  | evbuffer_drain_failed
  /-- The text "Wide chars not supported". -/
  | wide_chars_not_supported
  /-- The text "buf is NULL". -/
  | buf_is_null
  /-- The text "evbuffer_add failed". -/
  | evbuffer_add_failed
  /-- The text "evbuffer_reserve_space failed". -/
  | evbuffer_reserve_space_failed
  /-- The text "evbuffer_commit_space failed". -/
  | evbuffer_commit_space_failed
  /-- Not a C++ exception: a loop of the model ran out of fuel (proved never to happen). -/
  | fuel_exhausted
  deriving DecidableEq, Repr

deriving instance DecidableEq for Except

/-- The backend's extent descriptor: `iov_base` is the memory the pointer refers
to, `iov_len` the number of bytes of it that count. -/
structure evbuffer_iovec where
  iov_base : List Byte
  iov_len : Nat
  deriving DecidableEq, Repr

/-- A zeroed extent, as `calloc` leaves it (`iov_base = NULL`, `iov_len = 0`). -/
def evbuffer_iovec.zero : evbuffer_iovec := ⟨[], 0⟩

/-! ## IghtIovec -/

/-- The class `IghtIovec`: `iov` is `none` for the `NULL` pointer. -/
structure IghtIovec where
  iov : Option (List evbuffer_iovec) := none
  count : Nat := 0
  deriving DecidableEq, Repr

/-- The constructor `IghtIovec(size_t n)`.  `calloc_ok` says whether `calloc` returns memory. -/
def IghtIovec.new (calloc_ok : Bool) (n : Nat) : Except Error IghtIovec :=
  if n < 1 then
    .ok { iov := none, count := 0 }
  else if calloc_ok = false then
    .error .bad_alloc
  else
    .ok { iov := some (List.replicate n evbuffer_iovec.zero), count := n }

/-- The member `operator[](int i)`.  The cast `(size_t) i` is exact for `i ≥ 0`, hence `i.toNat`. -/
def IghtIovec.operator_idx (self : IghtIovec) (i : Int) : Except Error evbuffer_iovec :=
  match self.iov with
  | none => .error .iovec_is_null
  | some iov =>
    if i < 0 ∨ i.toNat ≥ self.count then
      .error .invalid_index
    else
      .ok (iov.getD i.toNat evbuffer_iovec.zero)

/-- The member `get_base()`. -/
def IghtIovec.get_base (self : IghtIovec) : Except Error (List evbuffer_iovec) :=
  match self.iov with
  | none => .error .iovec_is_null
  | some iov => .ok iov

/-- The member `get_length()`. -/
def IghtIovec.get_length (self : IghtIovec) : Except Error Nat :=
  match self.iov with
  | none => .error .iovec_is_null
  | some _ => .ok self.count

/-- Storing through the pointer `iov[i]` (used after `operator_idx` succeeded). -/
def IghtIovec.store (self : IghtIovec) (i : Int) (e : evbuffer_iovec) : IghtIovec :=
  { self with iov := self.iov.map (fun a => a.set i.toNat e) }

/-! ## The libevent backend -/

/-- The backend buffer: the chains of an `evbuffer`, front first, each with the bytes it holds.
Chains without data (reserved, not committed space) may occur. -/
structure evbuffer where
  chains : List (List Byte)
  deriving DecidableEq, Repr

/-- The bytes of the buffer in order. -/
def evbuffer.content (buf : evbuffer) : List Byte := buf.chains.flatten

/-- Backend `evbuffer_new()`; `none` is the `NULL` result. -/
def evbuffer_new (alloc_ok : Bool) : Option evbuffer :=
  if alloc_ok then some ⟨[]⟩ else none

/-- Backend `evbuffer_get_length`: the field `total_len`, the sum of the chains' `off`. -/
def evbuffer_get_length (buf : evbuffer) : Nat := (buf.chains.map List.length).sum

/-- The extent descriptor `evbuffer_peek` stores for a chain: its data and its `off`. -/
def chain_iovec (chain : List Byte) : evbuffer_iovec := ⟨chain, chain.length⟩

/-- The chain walk of `evbuffer_peek` (with `start_at = NULL`). -/
def evbuffer_peek_loop (len : Int) (n_vec : Int) :
    List (List Byte) → Int → Int → List evbuffer_iovec → Int × List evbuffer_iovec
  | [], idx, _, vec => (idx, vec)
  | chain :: next, idx, len_so_far, vec =>
    if len ≥ 0 ∧ len_so_far ≥ len then (idx, vec)
    else if idx < n_vec then
      evbuffer_peek_loop len n_vec next (idx + 1) (len_so_far + chain.length)
        (vec.set idx.toNat (chain_iovec chain))
    else if len < 0 then (idx, vec)
    else evbuffer_peek_loop len n_vec next (idx + 1) (len_so_far + chain.length) vec

/-- Backend `evbuffer_peek(buf, len, NULL, vec, n_vec)`: returns the number of extents and the
array `vec` after the call.  With `n_vec = 0` and `len < 0` it counts the extents that hold
the whole content.  The number of chains is taken to fit an `int`. -/
def evbuffer_peek (buf : evbuffer) (len : Int) (vec : List evbuffer_iovec) (n_vec : Int) :
    Int × List evbuffer_iovec :=
  let len := if n_vec = 0 ∧ len < 0 then (evbuffer_get_length buf : Int) else len
  evbuffer_peek_loop len n_vec buf.chains 0 0 vec

/-- The chain walk of `evbuffer_drain` for `len` smaller than the total length. -/
def evbuffer_drain_loop : Nat → List (List Byte) → List (List Byte)
  | _, [] => []
  | remaining, chain :: next =>
    if remaining ≥ chain.length then evbuffer_drain_loop (remaining - chain.length) next
    else chain.drop remaining :: next

/-- Backend `evbuffer_drain(buf, len)`: removes `len` bytes from the front, everything when
`len` is not smaller than the length.  It fails only on a buffer frozen at the front, which an
`IghtBuffer` never does to its private `evbuf`, so the return code is 0. -/
def evbuffer_drain (buf : evbuffer) (len : Nat) : Int × evbuffer :=
  let old_len := evbuffer_get_length buf
  if old_len = 0 then (0, buf)
  else if len ≥ old_len then (0, ⟨[]⟩)
  else (0, ⟨evbuffer_drain_loop len buf.chains⟩)

/-- Appends `data` behind the chains: `room` bytes still fit the last chain, the rest goes to a
new chain. -/
def chains_append (room : Nat) (data : List Byte) : List (List Byte) → List (List Byte)
  | [] => [data]
  | [last] =>
    (last ++ data.take room) :: (if data.length ≤ room then [] else [data.drop room])
  | chain :: next => chain :: chains_append room data next

/-- Backend `evbuffer_add(buf, data, datlen)`.  `alloc_ok` says whether the backend gets the
memory it asks for, `room` how many bytes the last chain can still take. -/
def evbuffer_add (buf : evbuffer) (data : List Byte) (alloc_ok : Bool) (room : Nat) :
    Int × evbuffer :=
  if data.length = 0 then (0, buf)
  else if alloc_ok = false then (-1, buf)
  else (0, ⟨chains_append room data buf.chains⟩)

/-- Offset of the first linefeed (backend `evbuffer_strchr(&it, 10)`). -/
def find_lf : List Byte → Option Nat
  | [] => none
  | c :: cs => if c = 10 then some 0 else (find_lf cs).map (· + 1)

/-- Backend `evbuffer_search_eol(buf, NULL, &eol_length, EVBUFFER_EOL_CRLF)`: the position of the
first end of line (a linefeed, with the carriage return right before it when there is one)
and `eol_length`; position -1 when there is none. -/
def evbuffer_search_eol_crlf (buf : evbuffer) : Int × Nat :=
  match find_lf buf.content with
  | none => (-1, 0)
  | some k =>
    if k ≠ 0 ∧ buf.content.get? (k - 1) = some 13 then ((k : Int) - 1, 2)
    else ((k : Int), 1)

/-- Backend `evbuffer_reserve_space(buf, size, vec, n_vec)`.  `reserved` is what the backend
decides: `none` when it cannot get the space (return value -1), else the sizes of the extents
it hands out.  The return value is their number; at most `n_vec` descriptors are stored into
`vec`, each with storage of its size (not yet initialised, shown as zero bytes).  Reserved
space holds no data, so the chains of the model stay as they are. -/
def evbuffer_reserve_space (_buf : evbuffer) (_size : Nat) (vec : List evbuffer_iovec)
    (n_vec : Int) (reserved : Option (List Nat)) : Int × List evbuffer_iovec :=
  match reserved with
  | none => (-1, vec)
  | some sizes =>
    let stored := (sizes.take n_vec.toNat).map
      (fun n => ({ iov_base := List.replicate n 0, iov_len := n } : evbuffer_iovec))
    ((sizes.length : Int), stored ++ vec.drop stored.length)

/-- Backend `evutil_secure_rng_get_bytes(buf, n)`: the first `n` bytes of the memory `buf` are
overwritten with the next `n` bytes of the generator's stream `rng`, read from `pos` on. -/
def evutil_secure_rng_get_bytes (rng : Nat → Byte) (pos : Nat) (buf : List Byte) (n : Nat) :
    List Byte :=
  (List.range n).map (fun j => rng (pos + j)) ++ buf.drop n

/-- The chains after committing extents: each extent's `iov_len` bytes become data; the first
extent lies in the last chain when `merge` is set, every other one in a chain of its own. -/
def commit_chains : Bool → List evbuffer_iovec → List (List Byte) → List (List Byte)
  | _, [], chains => chains
  | merge, e :: es, chains =>
    commit_chains false es
      (chains_append (if merge then e.iov_len else 0) (e.iov_base.take e.iov_len) chains)

/-- Backend `evbuffer_commit_space(buf, vec, n_vecs)`.  `commit_ok` says whether the backend
accepts the extents, `merge_first` whether the first extent was space of the last chain. -/
def evbuffer_commit_space (buf : evbuffer) (vec : List evbuffer_iovec) (n_vecs : Int)
    (commit_ok : Bool) (merge_first : Bool) : Int × evbuffer :=
  if n_vecs = 0 then (0, buf)
  else if commit_ok = false then (-1, buf)
  else (0, ⟨commit_chains merge_first (vec.take n_vecs.toNat) buf.chains⟩)

/-! ## IghtBuffer -/

/-- The class `IghtBuffer`. -/
structure IghtBuffer where
  evbuf : evbuffer
  deriving DecidableEq, Repr

/-- The constructor `IghtBuffer()`. -/
def IghtBuffer.new (alloc_ok : Bool) : Except Error IghtBuffer :=
  match evbuffer_new alloc_ok with
  | none => .error .bad_alloc
  | some evbuf => .ok ⟨evbuf⟩

/-- The bytes held by the buffer, front first. -/
def IghtBuffer.content (self : IghtBuffer) : List Byte := self.evbuf.content

/-- The member `length()`. -/
def IghtBuffer.length (self : IghtBuffer) : Nat := evbuffer_get_length self.evbuf

/-- The `for` loop of `foreach`; `fn` is the visitor, threading the variables it captured. -/
def IghtBuffer.foreach_loop {σ : Type} (fn : evbuffer_iovec → σ → Bool × σ) (iov : IghtIovec)
    (required_size : Int) : Nat → Int → σ → Except Error σ
  | 0, i, s => if i < required_size then .error .fuel_exhausted else .ok s
  | fuel + 1, i, s =>
    if i < required_size then
      match iov.operator_idx i with
      | .error e => .error e
      | .ok extent =>
        let r := fn extent s
        if r.1 then IghtBuffer.foreach_loop fn iov required_size fuel (i + 1) r.2
        else .ok r.2
    else .ok s

/-- The member `foreach(fn)`.  It does not change the buffer; the result is the visitor's
captured variables after the traversal. -/
def IghtBuffer.foreach {σ : Type} (self : IghtBuffer) (calloc_ok : Bool)
    (fn : evbuffer_iovec → σ → Bool × σ) (s : σ) : Except Error σ :=
  let required_size := (evbuffer_peek self.evbuf (-1) [] 0).1
  if required_size < 0 then .error .unexpected_error
  else if required_size = 0 then .ok s
  else
    match IghtIovec.new calloc_ok required_size.toNat with
    | .error e => .error e
    | .ok iov =>
      match iov.get_base, iov.get_length with
      | .error e, _ => .error e
      | .ok _, .error e => .error e
      | .ok base, .ok n_vec =>
        let r := evbuffer_peek self.evbuf (-1) base n_vec
        let used := r.1
        let iov : IghtIovec := { iov with iov := some r.2 }
        if used ≠ required_size then .error .unexpected_error
        else IghtBuffer.foreach_loop fn iov required_size required_size.toNat 0 s

/-- The traversal `foreach` performs over a list of extents: the visitor is called on each
extent in turn until it returns `false`. -/
def visit {σ : Type} (fn : evbuffer_iovec → σ → Bool × σ) : List evbuffer_iovec → σ → σ
  | [], s => s
  | extent :: rest, s =>
    let r := fn extent s
    if r.1 then visit fn rest r.2 else r.2

/-- The extents `foreach` presents: those of the chains counted by the first `evbuffer_peek`. -/
def IghtBuffer.extents (self : IghtBuffer) : List evbuffer_iovec :=
  (self.evbuf.chains.take (evbuffer_peek self.evbuf (-1) [] 0).1.toNat).map chain_iovec

/-- The member `discard(size_t count)`. -/
def IghtBuffer.discard (self : IghtBuffer) (count : Nat) : Except Error Unit × IghtBuffer :=
  let r := evbuffer_drain self.evbuf count
  if r.1 ≠ 0 then (.error .evbuffer_drain_failed, ⟨r.2⟩)
  else (.ok (), ⟨r.2⟩)

/-- The member `discard(void)`. -/
def IghtBuffer.discard_all (self : IghtBuffer) : Except Error Unit × IghtBuffer :=
  self.discard self.length

/-- The variables captured by the visitor of `read`. -/
structure ReadVars where
  upto : Nat
  nbytes : Nat
  out : List Byte
  deriving DecidableEq, Repr

/-- The visitor passed to `foreach` in `read`. -/
def IghtBuffer.read_visitor (iov : evbuffer_iovec) (v : ReadVars) : Bool × ReadVars :=
  let iov : evbuffer_iovec := if v.upto < iov.iov_len then { iov with iov_len := v.upto } else iov
  let out := v.out ++ iov.iov_base.take iov.iov_len
  let upto := v.upto - iov.iov_len
  let nbytes := v.nbytes + iov.iov_len
  (decide (upto > 0), { upto := upto, nbytes := nbytes, out := out })

/-- The member `read<T>(size_t upto)`; `sizeof_T` is `sizeof (T)`. -/
def IghtBuffer.read (self : IghtBuffer) (sizeof_T : Nat) (calloc_ok : Bool) (upto : Nat) :
    Except Error (List Byte) × IghtBuffer :=
  if sizeof_T ≠ 1 then (.error .wide_chars_not_supported, self)
  else
    match self.foreach calloc_ok IghtBuffer.read_visitor { upto := upto, nbytes := 0, out := [] } with
    | .error e => (.error e, self)
    | .ok v =>
      match self.discard v.nbytes with
      | (.error e, b) => (.error e, b)
      | (.ok _, b) => (.ok v.out, b)

/-- The member `read<T>(void)`. -/
def IghtBuffer.read_all (self : IghtBuffer) (sizeof_T : Nat) (calloc_ok : Bool) :
    Except Error (List Byte) × IghtBuffer :=
  self.read sizeof_T calloc_ok self.length

/-- The member `readn<T>(size_t n)`. -/
def IghtBuffer.readn (self : IghtBuffer) (sizeof_T : Nat) (calloc_ok : Bool) (n : Nat) :
    Except Error (List Byte) × IghtBuffer :=
  if n > self.length then (.ok [], self)
  else self.read sizeof_T calloc_ok n

/-- The member `readline(size_t maxline)`. -/
def IghtBuffer.readline (self : IghtBuffer) (calloc_ok : Bool) (maxline : Nat) :
    Except Error (Int × List Byte) × IghtBuffer :=
  let search_result := evbuffer_search_eol_crlf self.evbuf
  let pos := search_result.1
  let eol_length := search_result.2
  if pos < 0 then
    if self.length > maxline then (.ok (-1, []), self)
    else (.ok (0, []), self)
  else if eol_length ≠ 1 ∧ eol_length ≠ 2 then (.error .unexpected_error, self)
  else
    let len := pos.toNat + eol_length
    if len > maxline then (.ok (-2, []), self)
    else
      match self.read 1 calloc_ok len with
      | (.error e, b) => (.error e, b)
      | (.ok line, b) => (.ok (0, line), b)

/-- The member `write(const void *buf, size_t count)`; `buf` is `none` for `NULL`, else the
memory it points to. -/
def IghtBuffer.write (self : IghtBuffer) (buf : Option (List Byte)) (count : Nat)
    (alloc_ok : Bool) (room : Nat) : Except Error Unit × IghtBuffer :=
  match buf with
  | none => (.error .buf_is_null, self)
  | some mem =>
    let r := evbuffer_add self.evbuf (mem.take count) alloc_ok room
    if r.1 ≠ 0 then (.error .evbuffer_add_failed, ⟨r.2⟩)
    else (.ok (), ⟨r.2⟩)

/-- The member `write(std::string in)`. -/
def IghtBuffer.write_string (self : IghtBuffer) (s : List Byte) (alloc_ok : Bool) (room : Nat) :
    Except Error Unit × IghtBuffer :=
  self.write (some s) s.length alloc_ok room

/-- What the allocator, the backend and the random generator do during one `write_rand`. -/
structure RandEnv where
  calloc_ok : Bool
  reserved : Option (List Nat)
  rng : Nat → Byte
  commit_ok : Bool
  merge_first : Bool

/-- The `for` loop of `write_rand`; `pos` counts the random bytes drawn so far.  The result is
`i`, `count` and the view after the loop. -/
def IghtBuffer.write_rand_loop (rng : Nat → Byte) (n_extents : Int) :
    Nat → Int → Nat → IghtIovec → Nat → Except Error (Int × Nat × IghtIovec)
  | 0, i, count, iov, _ =>
    if i < n_extents ∧ count > 0 then .error .fuel_exhausted else .ok (i, count, iov)
  | fuel + 1, i, count, iov, pos =>
    if i < n_extents ∧ count > 0 then
      match iov.operator_idx i with
      | .error e => .error e
      | .ok extent =>
        let extent : evbuffer_iovec :=
          if count < extent.iov_len then { extent with iov_len := count } else extent
        let extent : evbuffer_iovec :=
          { extent with
            iov_base := evutil_secure_rng_get_bytes rng pos extent.iov_base extent.iov_len }
        IghtBuffer.write_rand_loop rng n_extents fuel (i + 1) (count - extent.iov_len)
          (iov.store i extent) (pos + extent.iov_len)
    else .ok (i, count, iov)

/-- The member `write_rand(size_t count)`; `IOV_MAX` is the constant of that name (32 when
the platform does not define it). -/
def IghtBuffer.write_rand (self : IghtBuffer) (IOV_MAX : Nat) (env : RandEnv) (count : Nat) :
    Except Error Unit × IghtBuffer :=
  if count = 0 then (.ok (), self)
  else
    match IghtIovec.new env.calloc_ok IOV_MAX with
    | .error e => (.error e, self)
    | .ok iov =>
      match iov.get_base, iov.get_length with
      | .error e, _ => (.error e, self)
      | .ok _, .error e => (.error e, self)
      | .ok base, .ok n_vec =>
        let r := evbuffer_reserve_space self.evbuf count base n_vec env.reserved
        let n_extents := r.1
        let iov : IghtIovec := { iov with iov := some r.2 }
        if n_extents < 0 then (.error .evbuffer_reserve_space_failed, self)
        else
          match IghtBuffer.write_rand_loop env.rng n_extents (IOV_MAX + 1) 0 count iov 0 with
          | .error e => (.error e, self)
          | .ok (i, count, iov) =>
            if count ≠ 0 ∨ i < 0 then (.error .unexpected_error, self)
            else
              match iov.get_length with
              | .error e => (.error e, self)
              | .ok len =>
                if ¬ (i.toNat ≤ len) then (.error .unexpected_error, self)
                else
                  match iov.get_base with
                  | .error e => (.error e, self)
                  | .ok base =>
                    let c := evbuffer_commit_space self.evbuf base i env.commit_ok
                      env.merge_first
                    if c.1 ≠ 0 then (.error .evbuffer_commit_space_failed, ⟨c.2⟩)
                    else (.ok (), ⟨c.2⟩)

/-- The bytes a list of filled extents stands for: the first `iov_len` bytes at each
`iov_base`, in order. -/
def extents_data (es : List evbuffer_iovec) : List Byte :=
  (es.map (fun e => e.iov_base.take e.iov_len)).flatten

/-- One call on an `IghtBuffer`, with what the allocator and the backend do during it. -/
inductive Op : Type 1 where
  | write (buf : Option (List Byte)) (count : Nat) (alloc_ok : Bool) (room : Nat)
  | write_rand (IOV_MAX : Nat) (env : RandEnv) (count : Nat)
  | read (sizeof_T : Nat) (calloc_ok : Bool) (upto : Nat)
  | readn (sizeof_T : Nat) (calloc_ok : Bool) (n : Nat)
  | readline (calloc_ok : Bool) (maxline : Nat)
  | discard (count : Nat)
  | foreach (σ : Type) (calloc_ok : Bool) (fn : evbuffer_iovec → σ → Bool × σ) (s : σ)

/-- The byte counts a caller reads off its calls: `appended` for the bytes handed to `write`
and `write_rand` calls that returned, `returned` for the lengths of the strings `read`, `readn`
and `readline` returned, `discard_counts` for the arguments of the `discard` calls that
returned, `discarded` for the same with every argument capped at `length()` at the call. -/
structure Tally where
  appended : Nat
  returned : Nat
  discard_counts : Nat
  discarded : Nat
  deriving DecidableEq, Repr

/-- Sum of two tallies. -/
def Tally.add (t u : Tally) : Tally :=
  { appended := t.appended + u.appended, returned := t.returned + u.returned,
    discard_counts := t.discard_counts + u.discard_counts,
    discarded := t.discarded + u.discarded }

/-- The tally of a call that threw or touched no byte. -/
def Tally.zero : Tally := { appended := 0, returned := 0, discard_counts := 0, discarded := 0 }

/-- Performs one call: the buffer afterwards and the tally of the call. -/
def Op.step : Op → IghtBuffer → IghtBuffer × Tally
  | .write buf count alloc_ok room, b =>
    match b.write buf count alloc_ok room with
    | (.ok _, b') => (b', { Tally.zero with appended := ((buf.getD []).take count).length })
    | (.error _, b') => (b', Tally.zero)
  | .write_rand IOV_MAX env count, b =>
    match b.write_rand IOV_MAX env count with
    | (.ok _, b') => (b', { Tally.zero with appended := count })
    | (.error _, b') => (b', Tally.zero)
  | .read sizeof_T calloc_ok upto, b =>
    match b.read sizeof_T calloc_ok upto with
    | (.ok out, b') => (b', { Tally.zero with returned := out.length })
    | (.error _, b') => (b', Tally.zero)
  | .readn sizeof_T calloc_ok n, b =>
    match b.readn sizeof_T calloc_ok n with
    | (.ok out, b') => (b', { Tally.zero with returned := out.length })
    | (.error _, b') => (b', Tally.zero)
  | .readline calloc_ok maxline, b =>
    match b.readline calloc_ok maxline with
    | (.ok (_, line), b') => (b', { Tally.zero with returned := line.length })
    | (.error _, b') => (b', Tally.zero)
  | .discard count, b =>
    match b.discard count with
    | (.ok _, b') =>
      (b', { Tally.zero with discard_counts := count, discarded := min count b.length })
    | (.error _, b') => (b', Tally.zero)
  | .foreach _ calloc_ok fn s, b =>
    match b.foreach calloc_ok fn s with
    | .ok _ => (b, Tally.zero)
    | .error _ => (b, Tally.zero)

/-- Performs a sequence of calls: the buffer afterwards and the tally of all calls. -/
def Op.run : List Op → IghtBuffer → IghtBuffer × Tally
  | [], b => (b, Tally.zero)
  | op :: ops, b =>
    let r := op.step b
    let rs := Op.run ops r.1
    (rs.1, r.2.add rs.2)

/-- One call `write(buf, count)` together with what the backend does on it. -/
structure WriteCall where
  buf : Option (List Byte)
  count : Nat
  alloc_ok : Bool
  room : Nat
  deriving DecidableEq, Repr

/-- A sequence of `write` calls on a buffer: the buffer afterwards and the bytes handed to the
calls that returned without an exception, in call order. -/
def IghtBuffer.write_calls : List WriteCall → IghtBuffer → IghtBuffer × List Byte
  | [], b => (b, [])
  | c :: cs, b =>
    match b.write c.buf c.count c.alloc_ok c.room with
    | (.ok _, b') =>
      let r := IghtBuffer.write_calls cs b'
      (r.1, (c.buf.getD []).take c.count ++ r.2)
    | (.error _, b') => IghtBuffer.write_calls cs b'

/-- The extents a traversal calls the visitor on: each extent in turn, up to and including the
first one on which the visitor returns `false`. -/
def visited {σ : Type} (fn : evbuffer_iovec → σ → Bool × σ) : List evbuffer_iovec → σ →
    List evbuffer_iovec
  | [], _ => []
  | extent :: rest, s =>
    let r := fn extent s
    extent :: (if r.1 then visited fn rest r.2 else [])

/-- A visitor that does what `fn` does and also notes every extent it is called on, in call
order. -/
def trace_visitor {σ : Type} (fn : evbuffer_iovec → σ → Bool × σ) (extent : evbuffer_iovec)
    (s : σ × List evbuffer_iovec) : Bool × (σ × List evbuffer_iovec) :=
  ((fn extent s.1).1, ((fn extent s.1).2, s.2 ++ [extent]))

/-- Calls `readline(maxline)` `k` times in a row: the results in call order and the buffer
afterwards. -/
def IghtBuffer.readlines (calloc_ok : Bool) (maxline : Nat) :
    Nat → IghtBuffer → List (Except Error (Int × List Byte)) × IghtBuffer
  | 0, b => ([], b)
  | k + 1, b =>
    let r := b.readline calloc_ok maxline
    let rs := IghtBuffer.readlines calloc_ok maxline k r.2
    (r.1 :: rs.1, rs.2)

/-! ## The Socks5 transport (`ight/net/socks5.hpp`)

The class `Socks5` wraps a `Connection` and hands most calls on to it.  `Connection` is not
among the sources, so the state of the wrapped connection is any type `C` and what it does on
a member call is a parameter `react`; the calls themselves are recorded.  What the connection
does while it serves a call (it may run callbacks) stays inside `react`.
-/

/-- A `std::function` object: `none` is the empty function, `some n` the callable named `n`. -/
abbrev Callback := Option Nat

/-- Modelled from the spec: the error value `IghtError` (its header is not among the sources),
by the error taxonomy of the spec; a `ProxyConnectError` carries the reason the proxy gave. -/
inductive IghtError where
  | ProgrammerError
  | AllocationError
  | ProtocolError
  | ProxyConnectError (reason : Byte)
  | TimeoutError
  deriving DecidableEq, Repr

/-- Modelled from the spec: the class `Settings` (its header is not among the sources), a
string-keyed mapping of configuration values. -/
abbrev Settings := List (String × String)

/-- The argument of one of the four `send` overloads. -/
inductive Payload where
  /-- The overload `send(const void* data, size_t count)`. -/
  | raw (data : List Byte) (count : Nat)
  /-- The overload `send(std::string data)`. -/
  | string (data : List Byte)
  /-- The overload `send(IghtBuffer& data)`. -/
  | buffer (data : IghtBuffer)
  /-- The overload `send(SharedPointer<IghtBuffer> data)`. -/
  | shared_buffer (data : IghtBuffer)
  deriving DecidableEq, Repr

/-- A member call made on the wrapped connection `conn`.  The `double` of `set_timeout` is only
handed on; it is shown as a rational number. -/
inductive ConnCall where
  | emit_connect
  | emit_data (data : IghtBuffer)
  | emit_flush
  | emit_error (err : IghtError)
  | on_ssl (fn : Callback)
  | on_error (fn : Callback)
  | set_timeout (timeout : Rat)
  | clear_timeout
  | send (data : Payload)
  | close
  deriving DecidableEq, Repr

/-- The class `Socks5`: its data members, and in `conn_calls` the member calls made on `conn`
through the members of the header, oldest first. -/
structure Socks5 (C : Type) where
  conn : C
  conn_calls : List ConnCall
  on_connect_fn : Callback
  on_data_fn : Callback
  on_flush_fn : Callback
  settings : Settings
  buffer : IghtBuffer
  isclosed : Bool
  proxy_address : String
  proxy_port : String
  deriving DecidableEq, Repr

/-- What the wrapped connection does on a member call: whether the call throws, and its state
afterwards. -/
abbrev ConnReact (C : Type) := ConnCall → C → Except IghtError Unit × C

/-- An instance as the default member initialisers of the class leave it (empty function
objects, a new empty buffer, `isclosed = false`).  The constructor `Socks5(Settings)` is only
declared in the header; what it stores (the connection, the settings, the proxy endpoint) is
given. -/
def Socks5.init {C : Type} (conn : C) (settings : Settings) (proxy_address proxy_port : String) :
    Socks5 C :=
  { conn := conn, conn_calls := [], on_connect_fn := none, on_data_fn := none,
    on_flush_fn := none, settings := settings, buffer := ⟨⟨[]⟩⟩, isclosed := false,
    proxy_address := proxy_address, proxy_port := proxy_port }

/-- A statement `conn->member(args)`: the call is recorded and the connection reacts. -/
def Socks5.call_conn {C : Type} (react : ConnReact C) (call : ConnCall) (self : Socks5 C) :
    Except IghtError Unit × Socks5 C :=
  let r := react call self.conn
  (r.1, { self with conn := r.2, conn_calls := self.conn_calls ++ [call] })

/-- The member `emit_connect()`. -/
def Socks5.emit_connect {C : Type} (react : ConnReact C) (self : Socks5 C) :
    Except IghtError Unit × Socks5 C :=
  self.call_conn react .emit_connect

/-- The member `emit_data(SharedPointer<IghtBuffer> data)`. -/
def Socks5.emit_data {C : Type} (react : ConnReact C) (data : IghtBuffer) (self : Socks5 C) :
    Except IghtError Unit × Socks5 C :=
  self.call_conn react (.emit_data data)

/-- The member `emit_flush()`. -/
def Socks5.emit_flush {C : Type} (react : ConnReact C) (self : Socks5 C) :
    Except IghtError Unit × Socks5 C :=
  self.call_conn react .emit_flush

/-- The member `emit_error(IghtError err)`. -/
def Socks5.emit_error {C : Type} (react : ConnReact C) (err : IghtError) (self : Socks5 C) :
    Except IghtError Unit × Socks5 C :=
  self.call_conn react (.emit_error err)

/-- The member `on_connect(fn)`. -/
def Socks5.on_connect {C : Type} (fn : Callback) (self : Socks5 C) : Socks5 C :=
  { self with on_connect_fn := fn }

/-- The member `on_ssl(fn)`. -/
def Socks5.on_ssl {C : Type} (react : ConnReact C) (fn : Callback) (self : Socks5 C) :
    Except IghtError Unit × Socks5 C :=
  self.call_conn react (.on_ssl fn)

/-- The member `on_data(fn)`. -/
def Socks5.on_data {C : Type} (fn : Callback) (self : Socks5 C) : Socks5 C :=
  { self with on_data_fn := fn }

/-- The member `on_flush(fn)`. -/
def Socks5.on_flush {C : Type} (fn : Callback) (self : Socks5 C) : Socks5 C :=
  { self with on_flush_fn := fn }

/-- The member `on_error(fn)`. -/
def Socks5.on_error {C : Type} (react : ConnReact C) (fn : Callback) (self : Socks5 C) :
    Except IghtError Unit × Socks5 C :=
  self.call_conn react (.on_error fn)

/-- The member `set_timeout(double timeout)`. -/
def Socks5.set_timeout {C : Type} (react : ConnReact C) (timeout : Rat) (self : Socks5 C) :
    Except IghtError Unit × Socks5 C :=
  self.call_conn react (.set_timeout timeout)

/-- The member `clear_timeout()`. -/
def Socks5.clear_timeout {C : Type} (react : ConnReact C) (self : Socks5 C) :
    Except IghtError Unit × Socks5 C :=
  self.call_conn react .clear_timeout

/-- The four overloads of `send`: each is the one statement `conn->send(...)` with the
arguments it got. -/
def Socks5.send {C : Type} (react : ConnReact C) (data : Payload) (self : Socks5 C) :
    Except IghtError Unit × Socks5 C :=
  self.call_conn react (.send data)

/-- The member `close()`. -/
def Socks5.close {C : Type} (react : ConnReact C) (self : Socks5 C) :
    Except IghtError Unit × Socks5 C :=
  ({ self with isclosed := true } : Socks5 C).call_conn react .close

/-- The member `socks5_address()`. -/
def Socks5.socks5_address {C : Type} (self : Socks5 C) : String := self.proxy_address

/-- The member `socks5_port()`. -/
def Socks5.socks5_port {C : Type} (self : Socks5 C) : String := self.proxy_port

/-- One call of a public member of `Socks5`. -/
inductive Socks5Op where
  | on_connect (fn : Callback)
  | on_ssl (fn : Callback)
  | on_data (fn : Callback)
  | on_flush (fn : Callback)
  | on_error (fn : Callback)
  | emit_connect
  | emit_data (data : IghtBuffer)
  | emit_flush
  | emit_error (err : IghtError)
  | set_timeout (timeout : Rat)
  | clear_timeout
  | send (data : Payload)
  | close
  | socks5_address
  | socks5_port
  deriving DecidableEq, Repr

/-- Performs one member call; an exception of the connection is caught by the caller, the
instance stays as the throwing call left it. -/
def Socks5Op.step {C : Type} (react : ConnReact C) : Socks5Op → Socks5 C → Socks5 C
  | .on_connect fn, s => s.on_connect fn
  | .on_ssl fn, s => (s.on_ssl react fn).2
  | .on_data fn, s => s.on_data fn
  | .on_flush fn, s => s.on_flush fn
  | .on_error fn, s => (s.on_error react fn).2
  | .emit_connect, s => (s.emit_connect react).2
  | .emit_data data, s => (s.emit_data react data).2
  | .emit_flush, s => (s.emit_flush react).2
  | .emit_error err, s => (s.emit_error react err).2
  | .set_timeout timeout, s => (s.set_timeout react timeout).2
  | .clear_timeout, s => (s.clear_timeout react).2
  | .send data, s => (s.send react data).2
  | .close, s => (s.close react).2
  | .socks5_address, s => s
  | .socks5_port, s => s

/-- Performs a sequence of member calls. -/
def Socks5Op.run {C : Type} (react : ConnReact C) : List Socks5Op → Socks5 C → Socks5 C
  | [], s => s
  | op :: ops, s => Socks5Op.run react ops (op.step react s)

/-- Modelled from the spec: a callback being invoked, with the argument it is given (the
callback contract of the spec: `on_connect(fn())`, `on_data(fn(buffer))`, `on_error(fn(error))`,
`on_flush(fn())`, `on_ssl(fn())`); `Connection`/`Transport`, which make these calls, are not
among the sources. -/
inductive Upcall where
  | on_connect (fn : Callback)
  | on_data (fn : Callback) (data : List Byte)
  | on_flush (fn : Callback)
  | on_error (fn : Callback) (err : IghtError)
  | on_ssl (fn : Callback)
  deriving DecidableEq, Repr

/-- Modelled from the spec: the wrapped `Connection`, whose header is not among the sources,
as a transport of the capability contract of the spec: at most one registered callback per
event kind, a `closed` flag, a timeout, the payloads accepted for transmission (`sent`) and the
callbacks it has invoked (`invoked`). -/
structure Connection where
  on_connect_fn : Callback
  on_data_fn : Callback
  on_flush_fn : Callback
  on_error_fn : Callback
  on_ssl_fn : Callback
  closed : Bool
  timeout : Option Rat
  sent : List Payload
  invoked : List Upcall
  deriving DecidableEq, Repr

/-- Modelled from the spec: what the wrapped `Connection` (not among the sources) does on a
member call, by the capability contract of the spec.  A registration overwrites the slot;
`emit_*` invokes the callback currently registered (none when the slot is empty);
`set_timeout` and `clear_timeout` arm and disarm the timeout; `close` sets the closed flag,
which is never reset; `send` accepts the payload for transmission, and after `close` it fails
instead (reported as a `ProgrammerError`) and accepts nothing. -/
def Connection.react : ConnReact Connection
  | .emit_connect, c =>
    (.ok (), if c.on_connect_fn.isSome
      then { c with invoked := c.invoked ++ [.on_connect c.on_connect_fn] } else c)
  | .emit_data data, c =>
    (.ok (), if c.on_data_fn.isSome
      then { c with invoked := c.invoked ++ [.on_data c.on_data_fn data.content] } else c)
  | .emit_flush, c =>
    (.ok (), if c.on_flush_fn.isSome
      then { c with invoked := c.invoked ++ [.on_flush c.on_flush_fn] } else c)
  | .emit_error err, c =>
    (.ok (), if c.on_error_fn.isSome
      then { c with invoked := c.invoked ++ [.on_error c.on_error_fn err] } else c)
  | .on_ssl fn, c => (.ok (), { c with on_ssl_fn := fn })
  | .on_error fn, c => (.ok (), { c with on_error_fn := fn })
  | .set_timeout timeout, c => (.ok (), { c with timeout := some timeout })
  | .clear_timeout, c => (.ok (), { c with timeout := none })
  | .send data, c =>
    if c.closed then (.error .ProgrammerError, c)
    else (.ok (), { c with sent := c.sent ++ [data] })
  | .close, c => (.ok (), { c with closed := true })

/-! ### The handshake

The constructor `Socks5(Settings)`, which installs the handlers that run the handshake, is
declared in the header and defined in a file that is not among the sources.  The handshake
below follows the state machine of the spec.
-/

/-- Modelled from the spec: the states of the handshake the constructor's handlers run
(socks5.cpp is not among the sources), as the spec lists them. -/
inductive HandshakeState where
  | Unconnected
  | AwaitingUnderlyingConnect
  | HandshakeGreetingSent
  | HandshakeMethodAck
  | HandshakeRequestSent
  | HandshakeReplyReceived (success : Bool)
  | Connected
  | Closed
  deriving DecidableEq, Repr

/-- Modelled from the spec: an event the underlying transport signals to the handlers the
constructor registered on it (those handlers are not among the sources): it connected, a
chunk of data arrived, it failed. -/
inductive TransportEvent where
  | connect
  | data (bytes : List Byte)
  | error (err : IghtError)
  deriving DecidableEq, Repr

/-- Modelled from the spec: a `Socks5` instance over a `Connection` together with what the
handshake handlers of the constructor (not among the sources) keep: the handshake state, the
target of the CONNECT (address type, address, port), the number of bytes of bound address and
port still to consume once it is known, and the callbacks of the caller the wrapper has
invoked itself. -/
structure Socks5Transport where
  base : Socks5 Connection
  state : HandshakeState
  target_type : Byte
  target_address : List Byte
  target_port : Nat
  bound_length : Option Nat
  upcalls : List Upcall
  deriving DecidableEq, Repr

/-- Modelled from the spec: the constructor `Socks5(Settings)` (defined outside the sources).
It takes the proxy host and port from the keys `socks5_address` and `socks5_port`, fails
(`none`, the configuration error of the spec) when one is absent, wraps the connection and
waits for it to connect. -/
def Socks5Transport.new (settings : Settings) (conn : Connection) (target_type : Byte)
    (target_address : List Byte) (target_port : Nat) : Option Socks5Transport :=
  match settings.lookup "socks5_address", settings.lookup "socks5_port" with
  | some address, some port =>
    some { base := Socks5.init conn settings address port,
           state := .AwaitingUnderlyingConnect,
           target_type := target_type, target_address := target_address,
           target_port := target_port, bound_length := none, upcalls := [] }
  | _, _ => none

/-- Modelled from the spec: the client greeting of the handshake handlers (not among the
sources): version 5, one method, "no authentication required". -/
def socks5_greeting : List Byte := [5, 1, 0]

/-- Modelled from the spec: the CONNECT request of the handshake handlers (not among the
sources): version, command CONNECT, reserved byte, address type, target address, target port
(high byte first). -/
def Socks5Transport.connect_request (t : Socks5Transport) : List Byte :=
  [5, 1, 0, t.target_type] ++ t.target_address
    ++ [UInt8.ofNat (t.target_port / 256), UInt8.ofNat (t.target_port % 256)]

/-- Modelled from the spec: how the handshake handlers (not among the sources) buffer a chunk
of a reply: it is appended to the buffer of the instance. -/
def Socks5Transport.buffer_data (bytes : List Byte) (t : Socks5Transport) : Socks5Transport :=
  { t with base := { t.base with
      buffer := (t.base.buffer.write (some bytes) bytes.length true 0).2 } }

/-- Modelled from the spec: how the handshake handlers (not among the sources) take the next
`n` bytes of a reply: `readn(n)` on the buffer of the instance, empty while fewer than `n`
bytes have arrived. -/
def Socks5Transport.readn (n : Nat) (t : Socks5Transport) : List Byte × Socks5Transport :=
  match t.base.buffer.readn 1 true n with
  | (.ok out, b) => (out, { t with base := { t.base with buffer := b } })
  | (.error _, b) => ([], { t with base := { t.base with buffer := b } })

/-- Modelled from the spec: a failure of the handshake handlers (not among the sources): the
error is emitted upstream with `emit_error`, and the state is `Closed`. -/
def Socks5Transport.fail (err : IghtError) (t : Socks5Transport) : Socks5Transport :=
  { t with base := (t.base.emit_error Connection.react err).2, state := .Closed }

/-- Modelled from the spec: the end of the handshake in the handlers of the constructor (not
among the sources): once the bytes of bound address and port are there they are consumed, the
state is `Connected` and the caller's `on_connect` callback is invoked; bytes beyond the
expected ones are a protocol violation. -/
def Socks5Transport.on_bound_rest (t : Socks5Transport) : Socks5Transport :=
  match t.bound_length with
  | none => t
  | some need =>
    let r := t.readn need
    if r.1 = [] then r.2
    else if r.2.base.buffer.length > 0 then r.2.fail .ProtocolError
    else
      { r.2 with
        state := .Connected
        upcalls := if r.2.base.on_connect_fn.isSome
          then r.2.upcalls ++ [.on_connect r.2.base.on_connect_fn] else r.2.upcalls }

/-- Modelled from the spec: consuming the remainder of a successful reply in the handlers of
the constructor (not among the sources); for a domain name the length byte comes first. -/
def Socks5Transport.on_bound (t : Socks5Transport) : Socks5Transport :=
  match t.bound_length with
  | some _ => t.on_bound_rest
  | none =>
    let r := t.readn 1
    match r.1 with
    | [n] => ({ r.2 with bound_length := some (n.toNat + 2) } : Socks5Transport).on_bound_rest
    | _ => r.2

/-- Modelled from the spec: step 4 of the handshake in the handlers of the constructor (not
among the sources): the reply header (version, status, reserved byte, address type) is
verified; a wrong version or address type is a protocol error, a failure status a
`ProxyConnectError` with the status; on success the remainder is consumed. -/
def Socks5Transport.on_header (t : Socks5Transport) : Socks5Transport :=
  let r := t.readn 4
  match r.1 with
  | [version, status, _, address_type] =>
    if version ≠ 5 then r.2.fail .ProtocolError
    else if status ≠ 0 then
      ({ r.2 with state := .HandshakeReplyReceived false } : Socks5Transport).fail
        (.ProxyConnectError status)
    else if address_type = 1 then
      ({ r.2 with state := .HandshakeReplyReceived true, bound_length := some 6 }
        : Socks5Transport).on_bound
    else if address_type = 4 then
      ({ r.2 with state := .HandshakeReplyReceived true, bound_length := some 18 }
        : Socks5Transport).on_bound
    else if address_type = 3 then
      ({ r.2 with state := .HandshakeReplyReceived true, bound_length := none }
        : Socks5Transport).on_bound
    else r.2.fail .ProtocolError
  | _ => r.2

/-- Modelled from the spec: step 3 of the handshake in the handlers of the constructor (not
among the sources): the 2-byte method selection is verified (version 5, method "no
authentication"); on a mismatch, or with bytes beyond the two, the handshake fails with a
protocol error; on a match the CONNECT request is sent. -/
def Socks5Transport.on_method (t : Socks5Transport) : Socks5Transport :=
  let r := t.readn 2
  if r.1 = [] then r.2
  else if r.2.base.buffer.length > 0 then r.2.fail .ProtocolError
  else if r.1 = [5, 0] then
    let t := ({ r.2 with state := .HandshakeMethodAck } : Socks5Transport)
    { t with
      base := (t.base.send Connection.react (.string t.connect_request)).2
      state := .HandshakeRequestSent }
  else r.2.fail .ProtocolError

/-- Modelled from the spec: what the handlers the constructor registers on the underlying
transport (not among the sources) do on an event, by the transitions of the spec.  On
connect the greeting is sent; data is buffered and the handshake advances once the bytes of
the current step are there; in `Connected` data goes verbatim to the caller's `on_data`; data
at a state that expects none is a protocol violation; an error of the underlying transport
reaches the callback registered for errors and closes; `Closed` is terminal. -/
def Socks5Transport.event : TransportEvent → Socks5Transport → Socks5Transport
  | .connect, t =>
    match t.state with
    | .AwaitingUnderlyingConnect =>
      { t with
        base := (t.base.send Connection.react (.string socks5_greeting)).2
        state := .HandshakeGreetingSent }
    | _ => t
  | .data bytes, t =>
    match t.state with
    | .HandshakeGreetingSent => (t.buffer_data bytes).on_method
    | .HandshakeRequestSent => (t.buffer_data bytes).on_header
    | .HandshakeReplyReceived true => (t.buffer_data bytes).on_bound
    | .Connected =>
      { t with
        upcalls := if t.base.on_data_fn.isSome
          then t.upcalls ++ [.on_data t.base.on_data_fn bytes] else t.upcalls }
    | .Closed => t
    | _ => t.fail .ProtocolError
  | .error err, t =>
    { t with
      base := { t.base with conn := (Connection.react (.emit_error err) t.base.conn).2 }
      state := .Closed }

/-- Modelled from the spec: a sequence of events of the underlying transport, each handled to
completion before the next (the handlers are not among the sources). -/
def Socks5Transport.run : List TransportEvent → Socks5Transport → Socks5Transport
  | [], t => t
  | e :: es, t => Socks5Transport.run es (t.event e)

/-- Modelled from the spec: a valid bound-address field of a proxy reply (the handlers that
parse it are not among the sources): the address type, then 4 bytes for type 1, 16 bytes for
type 4, or a length byte and that many bytes for type 3, then the 2 bytes of the port. -/
def valid_bound_address : List Byte → Bool
  | [] => false
  | address_type :: rest =>
    if address_type = 1 then rest.length = 6
    else if address_type = 4 then rest.length = 18
    else if address_type = 3 then
      match rest with
      | [] => false
      | n :: name => name.length = n.toNat + 2
    else false

/-! ## Backend lemmas -/

theorem evbuffer_get_length_eq (buf : evbuffer) :
    evbuffer_get_length buf = buf.content.length := by
  simp [evbuffer_get_length, evbuffer.content, List.length_flatten]

theorem IghtBuffer.length_eq (b : IghtBuffer) : b.length = b.content.length :=
  evbuffer_get_length_eq b.evbuf

theorem evbuffer_drain_loop_flatten (n : Nat) (cs : List (List Byte)) :
    (evbuffer_drain_loop n cs).flatten = cs.flatten.drop n := by
  induction cs generalizing n with
  | nil => simp [evbuffer_drain_loop]
  | cons c cs ih =>
    unfold evbuffer_drain_loop
    split
    · rename_i h
      rw [ih, List.flatten_cons, List.drop_append_eq_append_drop,
        List.drop_eq_nil_of_le h, List.nil_append]
    · rename_i h
      have h' : n - c.length = 0 := by omega
      rw [List.flatten_cons, List.flatten_cons, List.drop_append_eq_append_drop, h',
        List.drop_zero]

theorem evbuffer_drain_code (buf : evbuffer) (n : Nat) : (evbuffer_drain buf n).1 = 0 := by
  unfold evbuffer_drain
  simp only []
  split
  · rfl
  · split <;> rfl

theorem evbuffer_drain_content (buf : evbuffer) (n : Nat) :
    (evbuffer_drain buf n).2.content = buf.content.drop n := by
  unfold evbuffer_drain
  simp only [evbuffer_get_length_eq]
  split
  · rename_i h
    rw [List.length_eq_zero.mp h]; simp
  · split
    · rename_i h
      rw [List.drop_eq_nil_of_le h]; rfl
    · exact evbuffer_drain_loop_flatten n buf.chains

theorem flatten_eq_nil_of_sum_eq_zero (cs : List (List Byte))
    (h : (cs.map List.length).sum = 0) : cs.flatten = [] := by
  induction cs with
  | nil => rfl
  | cons c cs ih =>
    simp only [List.map_cons, List.sum_cons] at h
    have hc : c = [] := List.length_eq_zero.mp (by omega)
    rw [List.flatten_cons, ih (by omega), hc]; rfl

/-- Counting mode of `evbuffer_peek`: the walk stops after `m` chains, leaves `vec` alone, and
the chains it did not count hold no data. -/
theorem evbuffer_peek_loop_count (T : Nat) (cs : List (List Byte)) (idx sofar : Nat)
    (vec : List evbuffer_iovec) (hT : sofar + (cs.map List.length).sum = T) :
    ∃ m : Nat, evbuffer_peek_loop (T : Int) 0 cs (idx : Int) (sofar : Int) vec
        = (((idx + m : Nat) : Int), vec)
      ∧ m ≤ cs.length ∧ (cs.take m).flatten = cs.flatten := by
  induction cs generalizing idx sofar with
  | nil => exact ⟨0, by simp [evbuffer_peek_loop], by simp, by simp⟩
  | cons c cs ih =>
    simp only [List.map_cons, List.sum_cons] at hT
    by_cases hstop : (sofar : Int) ≥ (T : Int)
    · refine ⟨0, ?_, by simp, ?_⟩
      · simp [evbuffer_peek_loop, hstop]
      · have hs : sofar ≥ T := by exact_mod_cast hstop
        have h0 : ((c :: cs).map List.length).sum = 0 := by
          simp only [List.map_cons, List.sum_cons]; omega
        rw [flatten_eq_nil_of_sum_eq_zero _ h0]; rfl
    · obtain ⟨m, hm, hle, hfl⟩ := ih (idx + 1) (sofar + c.length) (by omega)
      refine ⟨m + 1, ?_, by simp [hle], ?_⟩
      · have hidx : ¬ ((idx : Int) < 0) := by omega
        have hT0 : ¬ ((T : Int) < 0) := by omega
        simp only [evbuffer_peek_loop, hstop, and_false, if_false, hidx, hT0]
        have e1 : ((idx : Int) + 1) = ((idx + 1 : Nat) : Int) := by push_cast; ring
        have e2 : ((sofar : Int) + (c.length : Int)) = ((sofar + c.length : Nat) : Int) := by
          push_cast; ring
        rw [e1, e2, hm]
        congr 2
        omega
      · simp [List.take_succ_cons, hfl]

/-- Filling mode of `evbuffer_peek` (`len = -1`, `n_vec = k`): slot `j` onwards of `vec`
receives the descriptors of the next chains. -/
theorem evbuffer_peek_loop_fill (k : Nat) (cs : List (List Byte)) (j : Nat) (sofar : Int)
    (vec : List evbuffer_iovec) (hj : j ≤ k) (hk : k - j ≤ cs.length) (hv : vec.length = k) :
    evbuffer_peek_loop (-1) (k : Int) cs (j : Int) sofar vec
      = ((k : Int), vec.take j ++ (cs.take (k - j)).map chain_iovec) := by
  induction cs generalizing j sofar vec with
  | nil =>
    have : j = k := by simp at hk; omega
    subst this
    simp [evbuffer_peek_loop, ← hv]
  | cons c cs ih =>
    by_cases hlt : j < k
    · have hlt' : (j : Int) < (k : Int) := by exact_mod_cast hlt
      have e1 : ((j : Int) + 1) = ((j + 1 : Nat) : Int) := by push_cast; ring
      simp only [evbuffer_peek_loop, hlt', if_true]
      have hneg : ¬ ((-1 : Int) ≥ 0 ∧ sofar ≥ -1) := by omega
      rw [if_neg hneg, e1, Int.toNat_ofNat,
        ih (j + 1) _ _ (by omega) (by simp at hk; omega) (by simp [hv])]
      have hkj : k - j = (k - (j + 1)) + 1 := by omega
      rw [hkj, List.take_succ_cons, List.map_cons]
      have : (vec.set j (chain_iovec c)).take (j + 1) = vec.take j ++ [chain_iovec c] := by
        rw [List.set_eq_take_append_cons_drop, if_pos (by omega), List.take_append_eq_append_take]
        simp [List.length_take, hv, Nat.min_eq_left (Nat.le_of_lt hlt)]
      rw [this]; simp
    · have : j = k := by omega
      subst this
      have hnlt : ¬ ((j : Int) < (j : Int)) := by omega
      have hneg : ¬ ((-1 : Int) ≥ 0 ∧ sofar ≥ -1) := by omega
      simp [evbuffer_peek_loop, hnlt, hneg, ← hv]

/-! ## `foreach` and `read` -/

/-- The `for` loop of `foreach` over a view holding the `k` extents `l`: with fuel for the
extents still ahead it ends and has visited them in order. -/
theorem IghtBuffer.foreach_loop_eq {σ : Type} (fn : evbuffer_iovec → σ → Bool × σ)
    (l : List evbuffer_iovec) (fuel i : Nat) (s : σ) (hi : i ≤ l.length)
    (hf : l.length - i ≤ fuel) :
    IghtBuffer.foreach_loop fn { iov := some l, count := l.length } (l.length : Int) fuel
      (i : Int) s = .ok (visit fn (l.drop i) s) := by
  induction fuel generalizing i s with
  | zero =>
    have : i = l.length := by omega
    subst this
    simp [IghtBuffer.foreach_loop, visit]
  | succ fuel ih =>
    by_cases hlt : i < l.length
    · have hlt' : (i : Int) < (l.length : Int) := by exact_mod_cast hlt
      have hidx : IghtIovec.operator_idx { iov := some l, count := l.length } (i : Int)
          = .ok (l.get ⟨i, hlt⟩) := by
        have h0 : ¬ ((i : Int) < 0 ∨ (i : Int).toNat ≥ l.length) := by
          rw [Int.toNat_ofNat]; omega
        simp only [IghtIovec.operator_idx, if_neg h0, Int.toNat_ofNat]
        simp [List.getD_eq_getElem?_getD, List.getElem?_eq_getElem hlt, hlt]
      have hdrop : l.drop i = l.get ⟨i, hlt⟩ :: l.drop (i + 1) := by
        rw [List.drop_eq_getElem_cons hlt]; rfl
      have e1 : ((i : Int) + 1) = ((i + 1 : Nat) : Int) := by push_cast; ring
      rw [IghtBuffer.foreach_loop, if_pos hlt', hidx, hdrop, visit]
      dsimp only
      rw [e1]
      split
      · exact ih (i + 1) _ (by omega) (by omega)
      · rfl
    · have : i = l.length := by omega
      subst this
      simp [IghtBuffer.foreach_loop, visit]

/-- The first `evbuffer_peek` of `foreach` returns a count `m` of chains, at most the number
of chains, and the counted chains hold the whole content. -/
theorem evbuffer_peek_count (buf : evbuffer) :
    ∃ m : Nat, evbuffer_peek buf (-1) [] 0 = ((m : Int), [])
      ∧ m ≤ buf.chains.length ∧ (buf.chains.take m).flatten = buf.content := by
  obtain ⟨m, hm, hle, hfl⟩ :=
    evbuffer_peek_loop_count (evbuffer_get_length buf) buf.chains 0 0 []
      (by simp [evbuffer_get_length])
  refine ⟨m, ?_, hle, hfl⟩
  have : evbuffer_peek buf (-1) [] 0
      = evbuffer_peek_loop (evbuffer_get_length buf : Int) 0 buf.chains 0 0 [] := by
    simp [evbuffer_peek]
  rw [this]
  simpa using hm

/-- With memory for the view, `foreach` ends without an exception and has visited the extents
of the buffer in order, up to the first one the visitor declines. -/
theorem IghtBuffer.foreach_eq {σ : Type} (b : IghtBuffer) (fn : evbuffer_iovec → σ → Bool × σ)
    (s : σ) : b.foreach true fn s = .ok (visit fn b.extents s) := by
  obtain ⟨m, hm, hle, _⟩ := evbuffer_peek_count b.evbuf
  unfold IghtBuffer.foreach IghtBuffer.extents
  simp only [hm, Int.toNat_ofNat]
  have hneg : ¬ ((m : Int) < 0) := by omega
  rw [if_neg hneg]
  by_cases h0 : m = 0
  · subst h0
    simp [visit]
  · have h0' : ¬ ((m : Int) = 0) := by exact_mod_cast h0
    have hm1 : ¬ (m < 1) := by omega
    rw [if_neg h0']
    simp only [IghtIovec.new, if_neg hm1, IghtIovec.get_base, IghtIovec.get_length,
      Bool.true_eq_false, if_false]
    have hfill := evbuffer_peek_loop_fill m b.evbuf.chains 0 0
      (List.replicate m evbuffer_iovec.zero) (by omega) (by omega) (by simp)
    have hpeek : evbuffer_peek b.evbuf (-1) (List.replicate m evbuffer_iovec.zero) (m : Int)
        = ((m : Int), (b.evbuf.chains.take m).map chain_iovec) := by
      have hc : ¬ ((m : Int) = 0 ∧ (-1 : Int) < 0) := by omega
      simp only [evbuffer_peek, if_neg hc]
      simpa using hfill
    simp only [hpeek, ne_eq, not_true_eq_false, if_false]
    have hlen : ((b.evbuf.chains.take m).map chain_iovec).length = m := by
      simp [Nat.min_eq_left hle]
    have := IghtBuffer.foreach_loop_eq fn ((b.evbuf.chains.take m).map chain_iovec) m 0 s
      (by omega) (by omega)
    rw [hlen] at this
    simpa using this

/-- The extents `foreach` presents cover the content: their memory, in order, is the content
of the buffer. -/
theorem IghtBuffer.extents_flatten (b : IghtBuffer) :
    (b.extents.map evbuffer_iovec.iov_base).flatten = b.content := by
  obtain ⟨m, hm, _, hfl⟩ := evbuffer_peek_count b.evbuf
  simp only [IghtBuffer.extents, hm, Int.toNat_ofNat, List.map_map]
  have : (evbuffer_iovec.iov_base ∘ chain_iovec) = id := by
    funext c; rfl
  rw [this, List.map_id]
  exact hfl

theorem IghtBuffer.extents_len (b : IghtBuffer) :
    ∀ e ∈ b.extents, e.iov_len = e.iov_base.length := by
  intro e he
  simp only [IghtBuffer.extents, List.mem_map] at he
  obtain ⟨c, _, rfl⟩ := he
  rfl

/-- What the visitor of `read` has accumulated after a traversal of extents that hold `T`
bytes: it took the first `min upto T` bytes and no more. -/
theorem visit_read_visitor (es : List evbuffer_iovec)
    (hes : ∀ e ∈ es, e.iov_len = e.iov_base.length) (u n : Nat) (o : List Byte) :
    visit IghtBuffer.read_visitor es { upto := u, nbytes := n, out := o }
      = { upto := u - min u (es.map evbuffer_iovec.iov_base).flatten.length,
          nbytes := n + min u (es.map evbuffer_iovec.iov_base).flatten.length,
          out := o ++ (es.map evbuffer_iovec.iov_base).flatten.take u } := by
  induction es generalizing u n o with
  | nil => simp [visit]
  | cons e es ih =>
    have hlen : e.iov_len = e.iov_base.length := hes e (by simp)
    have hes' : ∀ x ∈ es, x.iov_len = x.iov_base.length := fun x hx => hes x (by simp [hx])
    simp only [visit, IghtBuffer.read_visitor, List.map_cons, List.flatten_cons,
      List.length_append]
    by_cases hlt : u < e.iov_len
    · simp only [if_pos hlt]
      have hu : u ≤ e.iov_base.length := by omega
      simp only [Nat.sub_self, gt_iff_lt, Nat.lt_irrefl, decide_False, Bool.false_eq_true,
        if_false]
      rw [List.take_append_of_le_length hu, Nat.min_eq_left (by omega)]
      simp
    · simp only [if_neg hlt]
      by_cases hpos : u - e.iov_len > 0
      · simp only [hpos, decide_True, if_true]
        rw [ih hes', hlen]
        have hsplit : u = e.iov_base.length + (u - e.iov_base.length) := by omega
        have htake : List.take u (e.iov_base ++ (es.map evbuffer_iovec.iov_base).flatten)
            = e.iov_base ++ List.take (u - e.iov_base.length)
                (es.map evbuffer_iovec.iov_base).flatten := by
          conv_lhs => rw [hsplit]
          exact List.take_append _
        rw [htake, List.take_length]
        congr 1
        · omega
        · omega
        · simp
      · simp only [hpos, decide_False, Bool.false_eq_true, if_false]
        have hu : u = e.iov_base.length := by omega
        rw [hlen, List.take_length, hu, List.take_left']
        · congr 1
          · omega
          · omega
        · rfl

/-- With memory for the view, `read<T>(upto)` on one-byte `T` returns the first `upto` bytes of
the content (all of it when there are fewer) and drains `min upto length()` bytes. -/
theorem IghtBuffer.read_eq (b : IghtBuffer) (upto : Nat) :
    b.read 1 true upto
      = (.ok (b.content.take upto), ⟨(evbuffer_drain b.evbuf (min upto b.length)).2⟩) := by
  unfold IghtBuffer.read
  rw [if_neg (by decide), IghtBuffer.foreach_eq,
    visit_read_visitor b.extents b.extents_len, IghtBuffer.extents_flatten]
  simp only [IghtBuffer.discard, evbuffer_drain_code, ne_eq, not_true_eq_false, if_false,
    Nat.zero_add, List.nil_append, IghtBuffer.length_eq]

theorem IghtBuffer.read_content (b : IghtBuffer) (upto : Nat) :
    (b.read 1 true upto).2.content = b.content.drop upto := by
  rw [IghtBuffer.read_eq]
  show (evbuffer_drain b.evbuf (min upto b.length)).2.content = _
  rw [evbuffer_drain_content, IghtBuffer.length_eq]
  show List.drop (min upto b.content.length) b.content = _
  rcases Nat.le_total upto b.content.length with h | h
  · rw [Nat.min_eq_left h]
  · rw [Nat.min_eq_right h, List.drop_eq_nil_of_le h, List.drop_eq_nil_of_le (Nat.le_refl _)]

theorem chains_append_flatten (room : Nat) (data : List Byte) (cs : List (List Byte)) :
    (chains_append room data cs).flatten = cs.flatten ++ data := by
  induction cs with
  | nil => simp [chains_append]
  | cons c cs ih =>
    cases cs with
    | nil =>
      simp only [chains_append]
      split
      · rename_i h
        simp [List.take_of_length_le h]
      · simp
    | cons c' cs' =>
      simp only [chains_append] at ih ⊢
      rw [List.flatten_cons, ih]
      simp

/-- A `write` that returns appends exactly the `count` bytes at `buf`; one that throws leaves
the content as it was. -/
theorem IghtBuffer.write_content (b : IghtBuffer) (buf : Option (List Byte)) (count : Nat)
    (alloc_ok : Bool) (room : Nat) :
    (b.write buf count alloc_ok room).2.content
      = b.content ++ (match (b.write buf count alloc_ok room).1 with
          | .ok _ => (buf.getD []).take count
          | .error _ => []) := by
  cases buf with
  | none => simp [IghtBuffer.write]
  | some mem =>
    simp only [IghtBuffer.write, evbuffer_add, Option.getD_some]
    by_cases h0 : (mem.take count).length = 0
    · simp only [if_pos h0]
      simp [List.length_eq_zero.mp h0]
    · simp only [if_neg h0]
      cases alloc_ok with
      | false => simp
      | true =>
        simp [IghtBuffer.content, evbuffer.content, chains_append_flatten]

theorem IghtBuffer.write_calls_content (cs : List WriteCall) (b : IghtBuffer) :
    (IghtBuffer.write_calls cs b).1.content = b.content ++ (IghtBuffer.write_calls cs b).2 := by
  induction cs generalizing b with
  | nil => simp [IghtBuffer.write_calls]
  | cons c cs ih =>
    have hw := IghtBuffer.write_content b c.buf c.count c.alloc_ok c.room
    unfold IghtBuffer.write_calls
    split
    · rename_i u b' heq
      rw [heq] at hw
      simp only [] at hw ⊢
      rw [ih, hw, List.append_assoc]
    · rename_i e b' heq
      rw [heq] at hw
      simp only [List.append_nil] at hw
      rw [ih, hw]

theorem IghtBuffer.read_length (b : IghtBuffer) (upto : Nat) :
    (b.read 1 true upto).2.length = b.length - min upto b.length := by
  rw [IghtBuffer.length_eq, IghtBuffer.read_content, IghtBuffer.length_eq, List.length_drop]
  omega

theorem IghtBuffer.new_eq (alloc_ok : Bool) (b0 : IghtBuffer)
    (h0 : IghtBuffer.new alloc_ok = .ok b0) : b0 = ⟨⟨[]⟩⟩ := by
  cases alloc_ok with
  | false => simp [IghtBuffer.new, evbuffer_new] at h0
  | true =>
    simp only [IghtBuffer.new, evbuffer_new, if_true, Except.ok.injEq] at h0
    exact h0.symm

/-! ## `readline` -/

theorem find_lf_none (l : List Byte) (h : (10 : Byte) ∉ l) : find_lf l = none := by
  induction l with
  | nil => rfl
  | cons c cs ih =>
    simp only [List.mem_cons, not_or] at h
    have hc : ¬ (c = 10) := fun e => h.1 e.symm
    simp [find_lf, hc, ih h.2]

theorem find_lf_append (pre rest : List Byte) (h : (10 : Byte) ∉ pre) :
    find_lf (pre ++ 10 :: rest) = some pre.length := by
  induction pre with
  | nil => simp [find_lf]
  | cons c cs ih =>
    simp only [List.mem_cons, not_or] at h
    have hc : ¬ (c = 10) := fun e => h.1 e.symm
    simp [find_lf, hc, ih h.2]

/-- Whenever a linefeed is found at offset `k`, the search reports a position that is not
negative and an end-of-line length of 1 or 2 that together end right behind the linefeed. -/
theorem evbuffer_search_eol_crlf_some (buf : evbuffer) (k : Nat)
    (h : find_lf buf.content = some k) :
    0 ≤ (evbuffer_search_eol_crlf buf).1
      ∧ ((evbuffer_search_eol_crlf buf).2 = 1 ∨ (evbuffer_search_eol_crlf buf).2 = 2)
      ∧ (evbuffer_search_eol_crlf buf).1.toNat + (evbuffer_search_eol_crlf buf).2 = k + 1 := by
  unfold evbuffer_search_eol_crlf
  rw [h]
  dsimp only
  split
  · rename_i hcr
    have hk : k ≠ 0 := hcr.1
    refine ⟨by simp only; omega, Or.inr rfl, ?_⟩
    simp only
    omega
  · refine ⟨by simp, Or.inl rfl, ?_⟩
    simp

/-- What `readline` does, by the offset of the first linefeed of the content. -/
theorem IghtBuffer.readline_eq (b : IghtBuffer) (maxline : Nat) :
    b.readline true maxline
      = match find_lf b.content with
        | none => if b.length > maxline then (.ok (-1, []), b) else (.ok (0, []), b)
        | some k =>
          if k + 1 > maxline then (.ok (-2, []), b)
          else (.ok (0, b.content.take (k + 1)), (b.read 1 true (k + 1)).2) := by
  cases hf : find_lf b.content with
  | none =>
    have hs : evbuffer_search_eol_crlf b.evbuf = (-1, 0) := by
      unfold evbuffer_search_eol_crlf
      rw [show b.evbuf.content = b.content from rfl, hf]
    simp only [IghtBuffer.readline, hs]
    simp
  | some k =>
    obtain ⟨hpos, heol, hsum⟩ := evbuffer_search_eol_crlf_some b.evbuf k hf
    have hneg : ¬ ((evbuffer_search_eol_crlf b.evbuf).1 < 0) := by omega
    have heol' : ¬ ((evbuffer_search_eol_crlf b.evbuf).2 ≠ 1
        ∧ (evbuffer_search_eol_crlf b.evbuf).2 ≠ 2) := by
      rcases heol with h | h <;> simp [h]
    simp only [IghtBuffer.readline, if_neg hneg, if_neg heol', hsum]
    split
    · rfl
    · rw [IghtBuffer.read_eq]

/-! ## `write_rand` -/

theorem commit_chains_flatten (merge : Bool) (es : List evbuffer_iovec)
    (cs : List (List Byte)) :
    (commit_chains merge es cs).flatten = cs.flatten ++ extents_data es := by
  induction es generalizing merge cs with
  | nil => simp [commit_chains, extents_data]
  | cons e es ih =>
    simp only [commit_chains]
    rw [ih, chains_append_flatten]
    simp [extents_data]

theorem evutil_secure_rng_get_bytes_take (rng : Nat → Byte) (pos : Nat) (buf : List Byte)
    (n : Nat) : ((evutil_secure_rng_get_bytes rng pos buf n).take n).length = n := by
  simp [evutil_secure_rng_get_bytes, List.length_take]

/-- The loop of `write_rand` on a view whose first extents `done` are dealt with: when it ends
without an exception it has filled further extents `nd`, `i` has advanced by their number,
and the bytes they stand for are exactly what `count` went down by. -/
theorem IghtBuffer.write_rand_loop_ok (rng : Nat → Byte) (n_extents : Int) (fuel : Nat)
    (done todo : List evbuffer_iovec) (count pos k : Nat) (hk : k = done.length + todo.length)
    (i' : Int) (c' : Nat) (iov' : IghtIovec)
    (h : IghtBuffer.write_rand_loop rng n_extents fuel (done.length : Int) count
      { iov := some (done ++ todo), count := k } pos = .ok (i', c', iov')) :
    ∃ nd todo' : List evbuffer_iovec,
      i' = ((done.length + nd.length : Nat) : Int)
        ∧ iov' = { iov := some (done ++ nd ++ todo'), count := k }
        ∧ nd.length + todo'.length = todo.length
        ∧ (extents_data nd).length + c' = count := by
  induction fuel generalizing done todo count pos with
  | zero =>
    simp only [IghtBuffer.write_rand_loop] at h
    split at h
    · simp at h
    · simp only [Except.ok.injEq, Prod.mk.injEq] at h
      obtain ⟨h1, h2, h3⟩ := h
      exact ⟨[], todo, by simp [← h1], by simp [← h3], by simp, by simp [extents_data, h2]⟩
  | succ fuel ih =>
    rw [IghtBuffer.write_rand_loop] at h
    split at h
    · cases todo with
      | nil =>
        have hbad : ((done.length : Int) < 0 ∨ (done.length : Int).toNat ≥ k) := by
          right; rw [Int.toNat_ofNat]; simp at hk; omega
        have hidx : IghtIovec.operator_idx { iov := some (done ++ []), count := k }
            (done.length : Int) = .error .invalid_index := by
          unfold IghtIovec.operator_idx
          dsimp only
          rw [if_pos hbad]
        rw [hidx] at h
        simp at h
      | cons e t =>
        have hgood : ¬ ((done.length : Int) < 0 ∨ (done.length : Int).toNat ≥ k) := by
          rw [Int.toNat_ofNat]; simp at hk; omega
        have hidx : IghtIovec.operator_idx { iov := some (done ++ e :: t), count := k }
            (done.length : Int) = .ok e := by
          unfold IghtIovec.operator_idx
          dsimp only
          rw [if_neg hgood, Int.toNat_ofNat, List.getD_eq_getElem?_getD,
            List.getElem?_append_right (Nat.le_refl _), Nat.sub_self]
          simp
        rw [hidx] at h
        dsimp only at h
        let e1 : evbuffer_iovec :=
          if count < e.iov_len then { e with iov_len := count } else e
        let e2 : evbuffer_iovec :=
          { iov_base := evutil_secure_rng_get_bytes rng pos e1.iov_base e1.iov_len,
            iov_len := e1.iov_len }
        have hle : e1.iov_len ≤ count := by
          show (if count < e.iov_len then ({ e with iov_len := count } : evbuffer_iovec)
            else e).iov_len ≤ count
          split
          · exact Nat.le_refl _
          · omega
        have hstore :
            IghtIovec.store { iov := some (done ++ e :: t), count := k } (done.length : Int) e2
              = { iov := some ((done ++ [e2]) ++ t), count := k } := by
          simp [IghtIovec.store]
        have h' : IghtBuffer.write_rand_loop rng n_extents fuel
            (((done ++ [e2]).length : Nat) : Int) (count - e2.iov_len)
            { iov := some ((done ++ [e2]) ++ t), count := k } (pos + e2.iov_len)
            = .ok (i', c', iov') := by
          rw [← hstore, show (((done ++ [e2]).length : Nat) : Int) = (done.length : Int) + 1
            by simp]
          exact h
        obtain ⟨nd, todo', hi, hiov, hl, hsum⟩ :=
          ih (done ++ [e2]) t _ _ (by simp at hk ⊢; omega) h'
        refine ⟨e2 :: nd, todo', ?_, ?_, ?_, ?_⟩
        · rw [hi]; simp; omega
        · rw [hiov]; simp
        · simp at hl ⊢; omega
        · have he2 : (e2.iov_base.take e2.iov_len).length = e1.iov_len :=
            evutil_secure_rng_get_bytes_take rng pos e1.iov_base e1.iov_len
          have hsum' : (extents_data nd).length + c' = count - e1.iov_len := hsum
          simp only [extents_data, List.map_cons, List.flatten_cons, List.length_append, he2]
          simp only [extents_data] at hsum'
          omega
    · simp only [Except.ok.injEq, Prod.mk.injEq] at h
      obtain ⟨h1, h2, h3⟩ := h
      exact ⟨[], todo, by simp [← h1], by simp [← h3], by simp, by simp [extents_data, h2]⟩

/-- The loop of `write_rand` ends within its fuel: with more fuel than extents ahead it never
stops for lack of fuel. -/
theorem IghtBuffer.write_rand_loop_fuel (rng : Nat → Byte) (n_extents : Int) (fuel : Nat)
    (done todo : List evbuffer_iovec) (count pos k : Nat) (hk : k = done.length + todo.length)
    (hfuel : todo.length < fuel) :
    IghtBuffer.write_rand_loop rng n_extents fuel (done.length : Int) count
      { iov := some (done ++ todo), count := k } pos ≠ .error .fuel_exhausted := by
  induction fuel generalizing done todo count pos with
  | zero => omega
  | succ fuel ih =>
    rw [IghtBuffer.write_rand_loop]
    split
    · cases todo with
      | nil =>
        have hbad : ((done.length : Int) < 0 ∨ (done.length : Int).toNat ≥ k) := by
          right; rw [Int.toNat_ofNat]; simp at hk; omega
        have hidx : IghtIovec.operator_idx { iov := some (done ++ []), count := k }
            (done.length : Int) = .error .invalid_index := by
          unfold IghtIovec.operator_idx
          dsimp only
          rw [if_pos hbad]
        rw [hidx]
        simp
      | cons e t =>
        have hgood : ¬ ((done.length : Int) < 0 ∨ (done.length : Int).toNat ≥ k) := by
          rw [Int.toNat_ofNat]; simp at hk; omega
        have hidx : IghtIovec.operator_idx { iov := some (done ++ e :: t), count := k }
            (done.length : Int) = .ok e := by
          unfold IghtIovec.operator_idx
          dsimp only
          rw [if_neg hgood, Int.toNat_ofNat, List.getD_eq_getElem?_getD,
            List.getElem?_append_right (Nat.le_refl _), Nat.sub_self]
          simp
        rw [hidx]
        dsimp only
        let e1 : evbuffer_iovec :=
          if count < e.iov_len then { e with iov_len := count } else e
        let e2 : evbuffer_iovec :=
          { iov_base := evutil_secure_rng_get_bytes rng pos e1.iov_base e1.iov_len,
            iov_len := e1.iov_len }
        have hstore :
            IghtIovec.store { iov := some (done ++ e :: t), count := k } (done.length : Int) e2
              = { iov := some ((done ++ [e2]) ++ t), count := k } := by
          simp [IghtIovec.store]
        have h' := ih (done ++ [e2]) t (count - e2.iov_len) (pos + e2.iov_len)
          (by simp at hk ⊢; omega) (by simp at hfuel; omega)
        rw [← hstore, show (((done ++ [e2]).length : Nat) : Int) = (done.length : Int) + 1
          by simp] at h'
        exact h'
    · simp

theorem evbuffer_reserve_space_length (buf : evbuffer) (size n : Nat)
    (reserved : Option (List Nat)) :
    (evbuffer_reserve_space buf size (List.replicate n evbuffer_iovec.zero) (n : Int)
      reserved).2.length = n := by
  cases reserved with
  | none => simp [evbuffer_reserve_space]
  | some sizes =>
    simp only [evbuffer_reserve_space, Int.toNat_ofNat, List.length_append, List.length_map,
      List.length_take, List.length_drop, List.length_replicate]
    omega

/-- Committing the first extents `nd` of a view either appends the bytes they stand for or
fails and changes nothing. -/
theorem evbuffer_commit_space_cases (buf : evbuffer) (nd rest : List evbuffer_iovec)
    (commit_ok merge_first : Bool) :
    ((evbuffer_commit_space buf (nd ++ rest) (nd.length : Int) commit_ok merge_first).1 = 0
        ∧ (evbuffer_commit_space buf (nd ++ rest) (nd.length : Int) commit_ok merge_first).2.content
            = buf.content ++ extents_data nd)
      ∨ ((evbuffer_commit_space buf (nd ++ rest) (nd.length : Int) commit_ok merge_first).1 ≠ 0
        ∧ (evbuffer_commit_space buf (nd ++ rest) (nd.length : Int) commit_ok merge_first).2
            = buf) := by
  unfold evbuffer_commit_space
  split
  · rename_i h0
    have hnil : nd = [] := List.length_eq_zero.mp (by exact_mod_cast h0)
    left
    simp [hnil, extents_data]
  · split
    · right; simp
    · left
      refine ⟨rfl, ?_⟩
      simp [evbuffer.content, commit_chains_flatten]

/-- Every run of `write_rand`: it returns and has appended exactly `count` bytes, or it throws
and the buffer is as before. -/
theorem IghtBuffer.write_rand_cases (b : IghtBuffer) (IOV_MAX : Nat) (env : RandEnv)
    (count : Nat) :
    ((b.write_rand IOV_MAX env count).1 = .ok ()
        ∧ ∃ data : List Byte, data.length = count
            ∧ (b.write_rand IOV_MAX env count).2.content = b.content ++ data)
      ∨ (∃ e : Error, (b.write_rand IOV_MAX env count).1 = .error e
          ∧ (b.write_rand IOV_MAX env count).2 = b ∧ e ≠ .fuel_exhausted) := by
  unfold IghtBuffer.write_rand
  split
  · rename_i h0
    left
    exact ⟨rfl, [], by simp [h0], by simp⟩
  · by_cases hmax : IOV_MAX < 1
    · have hnew : IghtIovec.new env.calloc_ok IOV_MAX = .ok { iov := none, count := 0 } := by
        simp only [IghtIovec.new, if_pos hmax]
      rw [hnew]
      right; exact ⟨_, rfl, rfl, by decide⟩
    · cases hc : env.calloc_ok with
      | false =>
        have hnew : IghtIovec.new false IOV_MAX = .error .bad_alloc := by
          simp only [IghtIovec.new, if_neg hmax, if_true]
        rw [hnew]
        right; exact ⟨_, rfl, rfl, by decide⟩
      | true =>
        have hnew : IghtIovec.new true IOV_MAX
            = .ok { iov := some (List.replicate IOV_MAX evbuffer_iovec.zero),
                    count := IOV_MAX } := by
          simp only [IghtIovec.new, if_neg hmax, Bool.true_eq_false, if_false]
        rw [hnew]
        simp only [IghtIovec.get_base, IghtIovec.get_length]
        split
        · right; exact ⟨_, rfl, rfl, by decide⟩
        · have hrl := evbuffer_reserve_space_length b.evbuf count IOV_MAX env.reserved
          split
          · rename_i e hloop
            right
            refine ⟨e, rfl, rfl, ?_⟩
            intro he
            rw [he] at hloop
            exact IghtBuffer.write_rand_loop_fuel env.rng _ (IOV_MAX + 1) []
              (evbuffer_reserve_space b.evbuf count (List.replicate IOV_MAX evbuffer_iovec.zero)
                (IOV_MAX : Int) env.reserved).2 count 0 IOV_MAX (by simp [hrl])
              (by simp [hrl]) (by simpa using hloop)
          · rename_i i c' iov' hloop
            have hloop' := IghtBuffer.write_rand_loop_ok env.rng _ (IOV_MAX + 1) []
              (evbuffer_reserve_space b.evbuf count (List.replicate IOV_MAX evbuffer_iovec.zero)
                (IOV_MAX : Int) env.reserved).2 count 0 IOV_MAX (by simp [hrl]) i c' iov'
              (by simpa using hloop)
            obtain ⟨nd, todo', hi, hiov, hl, hsum⟩ := hloop'
            simp only [List.nil_append, List.length_nil, Nat.zero_add] at hi hiov
            subst hi hiov
            split
            · right; exact ⟨_, rfl, rfl, by decide⟩
            · rename_i hcnt
              have hc0 : c' = 0 := by
                by_contra hne
                exact hcnt (Or.inl hne)
              simp only [Int.toNat_ofNat]
              split
              · right; exact ⟨_, rfl, rfl, by decide⟩
              · rcases evbuffer_commit_space_cases b.evbuf nd todo' env.commit_ok
                  env.merge_first with ⟨hok, hcont⟩ | ⟨hfail, hsame⟩
                · left
                  rw [if_neg (by simp [hok])]
                  exact ⟨rfl, extents_data nd, by omega, hcont⟩
                · right
                  rw [if_pos hfail]
                  refine ⟨_, rfl, ?_, by decide⟩
                  show IghtBuffer.mk _ = b
                  rw [hsame]

/-! ## Sequences of calls -/

/-- Whatever the allocator does, `foreach` either performs the traversal or throws
`std::bad_alloc` before the first visit. -/
theorem IghtBuffer.foreach_cases {σ : Type} (b : IghtBuffer) (calloc_ok : Bool)
    (fn : evbuffer_iovec → σ → Bool × σ) (s : σ) :
    b.foreach calloc_ok fn s = .ok (visit fn b.extents s)
      ∨ b.foreach calloc_ok fn s = .error .bad_alloc := by
  cases calloc_ok with
  | true => exact Or.inl (IghtBuffer.foreach_eq b fn s)
  | false =>
    obtain ⟨m, hm, _, _⟩ := evbuffer_peek_count b.evbuf
    unfold IghtBuffer.foreach IghtBuffer.extents
    simp only [hm, Int.toNat_ofNat]
    have hneg : ¬ ((m : Int) < 0) := by omega
    rw [if_neg hneg]
    by_cases h0 : m = 0
    · subst h0
      left
      simp [visit]
    · have h0' : ¬ ((m : Int) = 0) := by exact_mod_cast h0
      have hm1 : ¬ (m < 1) := by omega
      right
      rw [if_neg h0']
      simp only [IghtIovec.new, if_neg hm1, if_true]

/-- Every run of `read`: it returns the first `upto` bytes and has drained them, or it throws
and the buffer is as before. -/
theorem IghtBuffer.read_cases (b : IghtBuffer) (sizeof_T : Nat) (calloc_ok : Bool)
    (upto : Nat) :
    b.read sizeof_T calloc_ok upto = b.read 1 true upto
      ∨ ∃ e : Error, b.read sizeof_T calloc_ok upto = (.error e, b) := by
  by_cases hs : sizeof_T = 1
  · subst hs
    rcases IghtBuffer.foreach_cases b calloc_ok IghtBuffer.read_visitor
        { upto := upto, nbytes := 0, out := [] } with h | h
    · left
      unfold IghtBuffer.read
      rw [h, IghtBuffer.foreach_eq]
    · right
      refine ⟨.bad_alloc, ?_⟩
      unfold IghtBuffer.read
      rw [h]
      simp
  · right
    exact ⟨.wide_chars_not_supported, by simp [IghtBuffer.read, hs]⟩

/-- The bytes `read` returns are the bytes the buffer loses. -/
theorem IghtBuffer.read_balance (b : IghtBuffer) (sizeof_T : Nat) (calloc_ok : Bool)
    (upto : Nat) :
    (∃ out b', b.read sizeof_T calloc_ok upto = (.ok out, b')
        ∧ b'.length + out.length = b.length)
      ∨ ∃ e : Error, b.read sizeof_T calloc_ok upto = (.error e, b) := by
  rcases IghtBuffer.read_cases b sizeof_T calloc_ok upto with h | h
  · left
    refine ⟨b.content.take upto, (b.read 1 true upto).2, ?_, ?_⟩
    · rw [h, IghtBuffer.read_eq]
    · rw [IghtBuffer.read_length, List.length_take, ← IghtBuffer.length_eq]
      omega
  · exact Or.inr h

theorem IghtBuffer.readn_balance (b : IghtBuffer) (sizeof_T : Nat) (calloc_ok : Bool)
    (n : Nat) :
    (∃ out b', b.readn sizeof_T calloc_ok n = (.ok out, b')
        ∧ b'.length + out.length = b.length)
      ∨ ∃ e : Error, b.readn sizeof_T calloc_ok n = (.error e, b) := by
  unfold IghtBuffer.readn
  split
  · exact Or.inl ⟨[], b, rfl, by simp⟩
  · exact IghtBuffer.read_balance b sizeof_T calloc_ok n

theorem IghtBuffer.readline_balance (b : IghtBuffer) (calloc_ok : Bool) (maxline : Nat) :
    (∃ code line b', b.readline calloc_ok maxline = (.ok (code, line), b')
        ∧ b'.length + line.length = b.length)
      ∨ ∃ e : Error, b.readline calloc_ok maxline = (.error e, b) := by
  unfold IghtBuffer.readline
  dsimp only
  split
  · split
    · exact Or.inl ⟨-1, [], b, rfl, by simp⟩
    · exact Or.inl ⟨0, [], b, rfl, by simp⟩
  · split
    · exact Or.inr ⟨_, rfl⟩
    · split
      · exact Or.inl ⟨-2, [], b, rfl, by simp⟩
      · rcases IghtBuffer.read_balance b 1 calloc_ok
            ((evbuffer_search_eol_crlf b.evbuf).1.toNat + (evbuffer_search_eol_crlf b.evbuf).2)
          with ⟨out, b', hr, hbal⟩ | ⟨e, he⟩
        · rw [hr]
          exact Or.inl ⟨0, out, b', rfl, hbal⟩
        · rw [he]
          exact Or.inr ⟨e, rfl⟩

theorem IghtBuffer.discard_balance (b : IghtBuffer) (count : Nat) :
    (b.discard count).1 = .ok ()
      ∧ (b.discard count).2.length + min count b.length = b.length := by
  have hcode : (b.discard count).1 = .ok () := by
    simp [IghtBuffer.discard, evbuffer_drain_code]
  have hcont : (b.discard count).2.content = b.content.drop count := by
    simp only [IghtBuffer.discard, evbuffer_drain_code, ne_eq, not_true_eq_false, if_false]
    exact evbuffer_drain_content b.evbuf count
  refine ⟨hcode, ?_⟩
  rw [IghtBuffer.length_eq, hcont, List.length_drop, IghtBuffer.length_eq]
  omega

/-- One call changes `length()` by what it appended less what it returned or discarded. -/
theorem Op.step_balance (op : Op) (b : IghtBuffer) :
    (op.step b).1.length + ((op.step b).2.returned + (op.step b).2.discarded)
      = b.length + (op.step b).2.appended := by
  cases op with
  | write buf count alloc_ok room =>
    have hw := IghtBuffer.write_content b buf count alloc_ok room
    simp only [Op.step]
    split
    · rename_i u b' heq
      rw [heq] at hw
      simp only [] at hw
      simp only [Tally.zero, IghtBuffer.length_eq, hw, List.length_append]
      omega
    · rename_i e b' heq
      rw [heq] at hw
      simp only [List.append_nil] at hw
      simp only [Tally.zero, IghtBuffer.length_eq, hw]
  | write_rand IOV_MAX env count =>
    simp only [Op.step]
    rcases IghtBuffer.write_rand_cases b IOV_MAX env count with
      ⟨hok, data, hlen, hcont⟩ | ⟨e, he, hb, _⟩
    · split
      · rename_i u b' heq
        rw [heq] at hcont
        simp only [] at hcont
        simp only [Tally.zero, IghtBuffer.length_eq, hcont, List.length_append, hlen]
        omega
      · rename_i e b' heq
        rw [heq] at hok
        exact Except.noConfusion hok
    · split
      · rename_i u b' heq
        rw [heq] at he
        exact Except.noConfusion he
      · rename_i e' b' heq
        rw [heq] at hb
        simp only [] at hb
        simp only [Tally.zero, hb]
  | read sizeof_T calloc_ok upto =>
    simp only [Op.step]
    rcases IghtBuffer.read_balance b sizeof_T calloc_ok upto with
      ⟨out, b', hr, hbal⟩ | ⟨e, he⟩
    · rw [hr]
      simp only [Tally.zero]
      omega
    · rw [he]
      simp only [Tally.zero]
  | readn sizeof_T calloc_ok n =>
    simp only [Op.step]
    rcases IghtBuffer.readn_balance b sizeof_T calloc_ok n with
      ⟨out, b', hr, hbal⟩ | ⟨e, he⟩
    · rw [hr]
      simp only [Tally.zero]
      omega
    · rw [he]
      simp only [Tally.zero]
  | readline calloc_ok maxline =>
    simp only [Op.step]
    rcases IghtBuffer.readline_balance b calloc_ok maxline with
      ⟨code, line, b', hr, hbal⟩ | ⟨e, he⟩
    · rw [hr]
      simp only [Tally.zero]
      omega
    · rw [he]
      simp only [Tally.zero]
  | discard count =>
    obtain ⟨hcode, hbal⟩ := IghtBuffer.discard_balance b count
    simp only [Op.step]
    split
    · rename_i u b' heq
      rw [heq] at hbal
      simp only [] at hbal
      simp only [Tally.zero]
      omega
    · rename_i e b' heq
      rw [heq] at hcode
      exact Except.noConfusion hcode
  | foreach σ calloc_ok fn s =>
    simp only [Op.step]
    split <;> simp [Tally.zero]

theorem Op.run_balance (ops : List Op) (b : IghtBuffer) :
    (Op.run ops b).1.length + ((Op.run ops b).2.returned + (Op.run ops b).2.discarded)
      = b.length + (Op.run ops b).2.appended := by
  induction ops generalizing b with
  | nil => simp [Op.run, Tally.zero]
  | cons op ops ih =>
    have h1 := Op.step_balance op b
    have h2 := ih (op.step b).1
    simp only [Op.run, Tally.add]
    omega

/-! ## The Socks5 wrapper -/

/-- No member call clears the closed flag. -/
theorem Socks5Op.step_isclosed {C : Type} (react : ConnReact C) (op : Socks5Op) (s : Socks5 C)
    (h : s.isclosed = true) : (op.step react s).isclosed = true := by
  cases op <;> first | exact h | rfl

theorem Socks5Op.run_isclosed {C : Type} (react : ConnReact C) (ops : List Socks5Op)
    (s : Socks5 C) (h : s.isclosed = true) : (Socks5Op.run react ops s).isclosed = true := by
  induction ops generalizing s with
  | nil => exact h
  | cons op ops ih => exact ih _ (Socks5Op.step_isclosed react op s h)

/-- A closed connection stays closed and accepts nothing more, whatever it is called with. -/
theorem Connection.react_closed (call : ConnCall) (c : Connection) (h : c.closed = true) :
    (Connection.react call c).2.closed = true ∧ (Connection.react call c).2.sent = c.sent := by
  cases call <;> simp only [Connection.react] <;> first
    | exact ⟨h, rfl⟩
    | (split <;> exact ⟨h, rfl⟩)
    | simp [h]

theorem Socks5Op.step_conn_closed (op : Socks5Op) (s : Socks5 Connection)
    (h : s.conn.closed = true) :
    (op.step Connection.react s).conn.closed = true
      ∧ (op.step Connection.react s).conn.sent = s.conn.sent := by
  cases op <;> first
    | exact ⟨h, rfl⟩
    | exact Connection.react_closed _ s.conn h

theorem Socks5Op.run_conn_closed (ops : List Socks5Op) (s : Socks5 Connection)
    (h : s.conn.closed = true) :
    (Socks5Op.run Connection.react ops s).conn.closed = true
      ∧ (Socks5Op.run Connection.react ops s).conn.sent = s.conn.sent := by
  induction ops generalizing s with
  | nil => exact ⟨h, rfl⟩
  | cons op ops ih =>
    obtain ⟨h1, h2⟩ := Socks5Op.step_conn_closed op s h
    obtain ⟨h3, h4⟩ := ih _ h1
    exact ⟨h3, h4.trans h2⟩

/-- No member call changes the proxy endpoint. -/
theorem Socks5Op.step_proxy {C : Type} (react : ConnReact C) (op : Socks5Op) (s : Socks5 C) :
    (op.step react s).proxy_address = s.proxy_address
      ∧ (op.step react s).proxy_port = s.proxy_port := by
  cases op <;> exact ⟨rfl, rfl⟩

theorem Socks5Op.run_proxy {C : Type} (react : ConnReact C) (ops : List Socks5Op)
    (s : Socks5 C) :
    (Socks5Op.run react ops s).proxy_address = s.proxy_address
      ∧ (Socks5Op.run react ops s).proxy_port = s.proxy_port := by
  induction ops generalizing s with
  | nil => exact ⟨rfl, rfl⟩
  | cons op ops ih =>
    obtain ⟨h1, h2⟩ := Socks5Op.step_proxy react op s
    obtain ⟨h3, h4⟩ := ih (op.step react s)
    exact ⟨h3.trans h1, h4.trans h2⟩

/-! ## The handshake -/

theorem IghtBuffer.write_ok_content (b : IghtBuffer) (bytes : List Byte) (room : Nat) :
    (b.write (some bytes) bytes.length true room).2.content = b.content ++ bytes := by
  have h := IghtBuffer.write_content b (some bytes) bytes.length true room
  have hok : (b.write (some bytes) bytes.length true room).1 = .ok () := by
    simp only [IghtBuffer.write, evbuffer_add]
    split <;> simp
  rw [hok] at h
  simpa using h

theorem Socks5Transport.buffer_data_content (bytes : List Byte) (t : Socks5Transport) :
    (t.buffer_data bytes).base.buffer.content = t.base.buffer.content ++ bytes :=
  IghtBuffer.write_ok_content t.base.buffer bytes 0

/-- While fewer than `n` bytes are buffered, taking `n` bytes gives nothing and changes
nothing. -/
theorem Socks5Transport.readn_wait (n : Nat) (t : Socks5Transport)
    (h : t.base.buffer.content.length < n) : t.readn n = ([], t) := by
  have hgt : n > t.base.buffer.length := by rw [IghtBuffer.length_eq]; exact h
  simp [Socks5Transport.readn, IghtBuffer.readn, hgt]

/-- With `n` bytes buffered, taking `n` bytes gives the first `n` and leaves the rest in the
buffer; nothing else of the transport changes. -/
theorem Socks5Transport.readn_take (n : Nat) (t : Socks5Transport)
    (h : n ≤ t.base.buffer.content.length) :
    t.readn n = (t.base.buffer.content.take n,
      { t with base := { t.base with buffer := (t.base.buffer.read 1 true n).2 } }) := by
  have hgt : ¬ (n > t.base.buffer.length) := by rw [IghtBuffer.length_eq]; omega
  simp only [Socks5Transport.readn, IghtBuffer.readn, if_neg hgt]
  rw [IghtBuffer.read_eq]

/-- Step 2: at `AwaitingUnderlyingConnect`, on connect, the greeting goes to an open
connection and the state is `HandshakeGreetingSent`; nothing else changes. -/
theorem Socks5Transport.event_connect (t : Socks5Transport)
    (hs : t.state = .AwaitingUnderlyingConnect) (hopen : t.base.conn.closed = false) :
    t.event .connect = { t with
      base := { t.base with
        conn := { t.base.conn with sent := t.base.conn.sent ++ [.string socks5_greeting] }
        conn_calls := t.base.conn_calls ++ [.send (.string socks5_greeting)] }
      state := .HandshakeGreetingSent } := by
  simp [Socks5Transport.event, hs, Socks5.send, Socks5.call_conn, Connection.react, hopen]

/-- Step 3, match: at `HandshakeGreetingSent`, once the buffered bytes are `05 00`, they are
consumed, the CONNECT request goes to the connection and the state is
`HandshakeRequestSent`; nothing else changes. -/
theorem Socks5Transport.event_method_ok (t : Socks5Transport) (bytes : List Byte)
    (hs : t.state = .HandshakeGreetingSent)
    (hb : t.base.buffer.content ++ bytes = [5, 0])
    (hopen : t.base.conn.closed = false) :
    t.event (.data bytes) = { t with
      base := { t.base with
        buffer := ((t.base.buffer.write (some bytes) bytes.length true 0).2.read 1 true 2).2
        conn := { t.base.conn with sent := t.base.conn.sent ++ [.string t.connect_request] }
        conn_calls := t.base.conn_calls ++ [.send (.string t.connect_request)] }
      state := .HandshakeRequestSent } := by
  have hc := Socks5Transport.buffer_data_content bytes t
  rw [hb] at hc
  have hr := Socks5Transport.readn_take 2 (t.buffer_data bytes) (by rw [hc]; decide)
  rw [hc] at hr
  simp only [Socks5Transport.event, hs, Socks5Transport.on_method, hr]
  simp [IghtBuffer.length_eq, IghtBuffer.read_content, IghtBuffer.write_ok_content, hb,
    Socks5.send, Socks5.call_conn, Connection.react, hopen, Socks5Transport.connect_request,
    Socks5Transport.buffer_data]

/-- Step 3, mismatch: at `HandshakeGreetingSent`, when the two buffered bytes are not `05 00`,
a protocol error is emitted on the connection, which invokes the callback registered for
errors, and the state is `Closed`; the wrapper itself invokes nothing. -/
theorem Socks5Transport.event_method_reject (t : Socks5Transport) (bytes : List Byte)
    (version method : Byte) (e : Nat)
    (hs : t.state = .HandshakeGreetingSent)
    (hb : t.base.buffer.content ++ bytes = [version, method])
    (hne : ¬ (version = 5 ∧ method = 0))
    (herr : t.base.conn.on_error_fn = some e) :
    (t.event (.data bytes)).state = .Closed
      ∧ (t.event (.data bytes)).upcalls = t.upcalls
      ∧ (t.event (.data bytes)).base.conn.invoked
          = t.base.conn.invoked ++ [.on_error (some e) .ProtocolError]
      ∧ (t.event (.data bytes)).base.conn.on_error_fn = some e
      ∧ (t.event (.data bytes)).base.conn_calls
          = t.base.conn_calls ++ [.emit_error .ProtocolError] := by
  have hc := Socks5Transport.buffer_data_content bytes t
  rw [hb] at hc
  have hr := Socks5Transport.readn_take 2 (t.buffer_data bytes) (by rw [hc]; simp)
  rw [hc] at hr
  simp only [Socks5Transport.event, hs, Socks5Transport.on_method, hr]
  have hne' : ¬ ([version, method] = [5, 0]) := by
    intro h
    simp only [List.cons.injEq, and_true] at h
    exact hne h
  simp [IghtBuffer.length_eq, IghtBuffer.read_content, IghtBuffer.write_ok_content, hb,
    Socks5.emit_error, Socks5.call_conn, Connection.react, herr, hne',
    Socks5Transport.buffer_data, Socks5Transport.fail]

/-- `Closed` is terminal: whatever events follow, the state stays `Closed`, the wrapper
invokes no callback, the registration for errors stays, and the connection invokes the
callback registered for errors only. -/
theorem Socks5Transport.run_closed (events : List TransportEvent) (t : Socks5Transport)
    (hs : t.state = .Closed) :
    (Socks5Transport.run events t).state = .Closed
      ∧ (Socks5Transport.run events t).upcalls = t.upcalls
      ∧ (Socks5Transport.run events t).base.conn.on_error_fn = t.base.conn.on_error_fn
      ∧ (∀ u ∈ (Socks5Transport.run events t).base.conn.invoked,
          u ∈ t.base.conn.invoked ∨ ∃ err, u = .on_error t.base.conn.on_error_fn err) := by
  induction events generalizing t with
  | nil => exact ⟨hs, rfl, rfl, fun u hu => Or.inl hu⟩
  | cons ev events ih =>
    have hstep : (t.event ev).state = .Closed ∧ (t.event ev).upcalls = t.upcalls
        ∧ (t.event ev).base.conn.on_error_fn = t.base.conn.on_error_fn
        ∧ (∀ u ∈ (t.event ev).base.conn.invoked,
            u ∈ t.base.conn.invoked ∨ ∃ err, u = .on_error t.base.conn.on_error_fn err) := by
      cases ev with
      | connect =>
        simp only [Socks5Transport.event, hs]
        exact ⟨trivial, trivial, trivial, fun u hu => Or.inl hu⟩
      | data bytes =>
        simp only [Socks5Transport.event, hs]
        exact ⟨trivial, trivial, trivial, fun u hu => Or.inl hu⟩
      | error err =>
        refine ⟨rfl, rfl, ?_, ?_⟩
        · simp only [Socks5Transport.event, Connection.react]
          split <;> rfl
        · intro u hu
          simp only [Socks5Transport.event, Connection.react] at hu
          split at hu
          · simp only [List.mem_append, List.mem_singleton] at hu
            rcases hu with hu | hu
            · exact Or.inl hu
            · exact Or.inr ⟨err, hu⟩
          · exact Or.inl hu
    obtain ⟨h1, h2, h3, h4⟩ := hstep
    obtain ⟨i1, i2, i3, i4⟩ := ih (t.event ev) h1
    refine ⟨i1, i2.trans h2, i3.trans h3, ?_⟩
    intro u hu
    rcases i4 u hu with hu' | ⟨err, hu'⟩
    · exact h4 u hu'
    · exact Or.inr ⟨err, by rw [hu', h3]⟩

/-- The end of step 4: with exactly the expected bytes of bound address and port buffered,
they are consumed, the state is `Connected` and the wrapper invokes the caller's `on_connect`
callback; the connection and the registrations are untouched. -/
theorem Socks5Transport.on_bound_rest_ok (t : Socks5Transport) (need : Nat)
    (hbl : t.bound_length = some need) (hlen : t.base.buffer.content.length = need)
    (hpos : 0 < need) :
    t.on_bound_rest.state = .Connected
      ∧ t.on_bound_rest.upcalls
          = (if t.base.on_connect_fn.isSome
              then t.upcalls ++ [.on_connect t.base.on_connect_fn] else t.upcalls)
      ∧ t.on_bound_rest.base.conn = t.base.conn
      ∧ t.on_bound_rest.base.conn_calls = t.base.conn_calls
      ∧ t.on_bound_rest.base.buffer.content = []
      ∧ t.on_bound_rest.base.on_connect_fn = t.base.on_connect_fn
      ∧ t.on_bound_rest.base.on_data_fn = t.base.on_data_fn := by
  have hr := Socks5Transport.readn_take need t (by omega)
  have htake : t.base.buffer.content.take need ≠ [] := by
    intro h
    have := congrArg List.length h
    rw [List.length_take, hlen, Nat.min_self, List.length_nil] at this
    omega
  have hrest : (t.base.buffer.read 1 true need).2.content = [] := by
    rw [IghtBuffer.read_content]
    exact List.drop_eq_nil_of_le (by omega)
  simp only [Socks5Transport.on_bound_rest, hbl, hr, if_neg htake]
  simp [IghtBuffer.length_eq, hrest]

/-- Step 4 on a successful reply: at `HandshakeRequestSent`, once the buffered bytes are a
header with version 5 and status 0 followed by a valid bound-address field, all of them are
consumed, the state is `Connected` and the wrapper invokes the caller's `on_connect`
callback; the connection and the registrations are untouched. -/
theorem Socks5Transport.event_reply_ok (t : Socks5Transport) (bytes : List Byte) (rsv : Byte)
    (bound : List Byte) (hs : t.state = .HandshakeRequestSent)
    (hb : t.base.buffer.content ++ bytes = 5 :: 0 :: rsv :: bound)
    (hv : valid_bound_address bound = true) :
    (t.event (.data bytes)).state = .Connected
      ∧ (t.event (.data bytes)).upcalls
          = (if t.base.on_connect_fn.isSome
              then t.upcalls ++ [.on_connect t.base.on_connect_fn] else t.upcalls)
      ∧ (t.event (.data bytes)).base.conn = t.base.conn
      ∧ (t.event (.data bytes)).base.conn_calls = t.base.conn_calls
      ∧ (t.event (.data bytes)).base.buffer.content = []
      ∧ (t.event (.data bytes)).base.on_connect_fn = t.base.on_connect_fn
      ∧ (t.event (.data bytes)).base.on_data_fn = t.base.on_data_fn := by
  cases bound with
  | nil => simp [valid_bound_address] at hv
  | cons atyp rest =>
    have hc := Socks5Transport.buffer_data_content bytes t
    rw [hb] at hc
    have hr := Socks5Transport.readn_take 4 (t.buffer_data bytes) (by rw [hc]; simp)
    rw [hc] at hr
    have hrest : ((t.buffer_data bytes).base.buffer.read 1 true 4).2.content = rest := by
      rw [IghtBuffer.read_content, hc]; rfl
    simp only [Socks5Transport.event, hs, Socks5Transport.on_header, hr, List.take]
    simp only [ne_eq, not_true_eq_false, if_false]
    simp only [valid_bound_address] at hv
    by_cases h1 : atyp = 1
    · simp only [h1, if_true, decide_eq_true_eq] at hv
      rw [if_pos h1]
      simp only [Socks5Transport.on_bound]
      exact Socks5Transport.on_bound_rest_ok _ 6 rfl (by rw [hrest]; exact hv) (by decide)
    · rw [if_neg h1] at hv ⊢
      by_cases h4 : atyp = 4
      · simp only [h4, if_true, decide_eq_true_eq] at hv
        rw [if_pos h4]
        simp only [Socks5Transport.on_bound]
        exact Socks5Transport.on_bound_rest_ok _ 18 rfl (by rw [hrest]; exact hv) (by decide)
      · rw [if_neg h4] at hv ⊢
        by_cases h3 : atyp = 3
        · rw [if_pos h3] at hv ⊢
          cases rest with
          | nil => simp at hv
          | cons n name =>
            simp only [decide_eq_true_eq] at hv
            have hr1 := Socks5Transport.readn_take 1
              ({ (t.buffer_data bytes) with
                  base := { (t.buffer_data bytes).base with
                    buffer := ((t.buffer_data bytes).base.buffer.read 1 true 4).2 }
                  state := .HandshakeReplyReceived true
                  bound_length := none } : Socks5Transport)
              (by simp only [hrest]; simp)
            simp only [hrest] at hr1
            simp only [Socks5Transport.on_bound, hr1, List.take]
            have hname : (((t.buffer_data bytes).base.buffer.read 1 true 4).2.read 1 true
                1).2.content = name := by
              rw [IghtBuffer.read_content, hrest]; rfl
            exact Socks5Transport.on_bound_rest_ok _ (n.toNat + 2) rfl
              (by rw [hname]; exact hv) (by omega)
        · rw [if_neg h3] at hv
          simp at hv

/-- Step 2 whatever the connection does with the greeting: the state is
`HandshakeGreetingSent`; buffer, invoked callbacks and registrations are untouched. -/
theorem Socks5Transport.event_connect_frame (t : Socks5Transport)
    (hs : t.state = .AwaitingUnderlyingConnect) :
    (t.event .connect).state = .HandshakeGreetingSent
      ∧ (t.event .connect).upcalls = t.upcalls
      ∧ (t.event .connect).base.buffer = t.base.buffer
      ∧ (t.event .connect).base.conn.invoked = t.base.conn.invoked
      ∧ (t.event .connect).base.conn.on_error_fn = t.base.conn.on_error_fn := by
  simp only [Socks5Transport.event, hs, Socks5.send, Socks5.call_conn, Connection.react]
  refine ⟨trivial, trivial, trivial, ?_, ?_⟩ <;> split <;> rfl

/-- Replies that arrive in pieces are buffered: with the method selection in two chunks and a
reply with a domain name as bound address in five, `on_connect` is invoked once, at the end,
and data that follows goes to `on_data`. -/
theorem Socks5Transport.fragmented_example :
    (Socks5Transport.run
        [.connect, .data [5], .data [0], .data [5, 0, 0], .data [3, 2, 65], .data [66, 0]]
        { base := ((Socks5.init (Connection.mk none none none none none false none [] []) []
            "127.0.0.1" "9050").on_connect (some 1)).on_data (some 2),
          state := .AwaitingUnderlyingConnect, target_type := 3,
          target_address := [3, 97, 98, 99], target_port := 80, bound_length := none,
          upcalls := [] }).upcalls = []
      ∧ (Socks5Transport.run
        [.connect, .data [5], .data [0], .data [5, 0, 0], .data [3, 2, 65], .data [66, 0],
          .data [80], .data [1, 2, 3]]
        { base := ((Socks5.init (Connection.mk none none none none none false none [] []) []
            "127.0.0.1" "9050").on_connect (some 1)).on_data (some 2),
          state := .AwaitingUnderlyingConnect, target_type := 3,
          target_address := [3, 97, 98, 99], target_port := 80, bound_length := none,
          upcalls := [] }).upcalls = [.on_connect (some 1), .on_data (some 2) [1, 2, 3]] := by
  decide

/-! ## Traversals and repeated `readline` -/

/-- A traversal with the noting visitor ends in the state of the plain traversal and has noted
exactly the visited extents. -/
theorem visit_trace_visitor {σ : Type} (fn : evbuffer_iovec → σ → Bool × σ)
    (es : List evbuffer_iovec) (s : σ) (seen : List evbuffer_iovec) :
    visit (trace_visitor fn) es (s, seen) = (visit fn es s, seen ++ visited fn es s) := by
  induction es generalizing s seen with
  | nil => simp [visit, visited]
  | cons e es ih =>
    simp only [visit, visited, trace_visitor]
    split
    · rw [ih]; simp
    · simp

/-- The visited extents are an initial segment of the extents. -/
theorem visited_prefix {σ : Type} (fn : evbuffer_iovec → σ → Bool × σ)
    (es : List evbuffer_iovec) (s : σ) :
    ∃ k, k ≤ es.length ∧ visited fn es s = es.take k := by
  induction es generalizing s with
  | nil => exact ⟨0, Nat.le_refl _, rfl⟩
  | cons e es ih =>
    simp only [visited]
    split
    · obtain ⟨k, hk, hv⟩ := ih (fn e s).2
      exact ⟨k + 1, by simp [hk], by rw [hv]; rfl⟩
    · exact ⟨1, by simp, by simp⟩

/-- A visitor that always continues is called on every extent. -/
theorem visited_all {σ : Type} (fn : evbuffer_iovec → σ → Bool × σ)
    (hfn : ∀ e s, (fn e s).1 = true) (es : List evbuffer_iovec) (s : σ) :
    visited fn es s = es := by
  induction es generalizing s with
  | nil => rfl
  | cons e es ih => simp [visited, hfn, ih]

/-- The traversal stops right after the first extent the visitor declines: when the visitor
continues on the extents before position `k` and returns `false` at position `k`, the visited
extents are the first `k + 1`. -/
theorem visited_stop {σ : Type} (fn : evbuffer_iovec → σ → Bool × σ)
    (es : List evbuffer_iovec) (s : σ) (k : Nat) (hk : k < es.length)
    (hbefore : ∀ j (hj : j < k),
      (fn (es.get ⟨j, Nat.lt_trans hj hk⟩) (visit fn (es.take j) s)).1 = true)
    (hstop : (fn (es.get ⟨k, hk⟩) (visit fn (es.take k) s)).1 = false) :
    visited fn es s = es.take (k + 1) := by
  induction es generalizing s k with
  | nil => simp at hk
  | cons e es ih =>
    cases k with
    | zero =>
      simp only [List.take_zero, visit, List.get_eq_getElem, List.getElem_cons_zero] at hstop
      simp [visited, hstop]
    | succ k =>
      have h0 : (fn e s).1 = true := by
        have := hbefore 0 (Nat.succ_pos k)
        simpa [visit] using this
      have hk' : k < es.length := by simpa using hk
      simp only [visited, h0, if_true, List.take_succ_cons]
      congr 1
      apply ih (fn e s).2 k hk'
      · intro j hj
        have := hbefore (j + 1) (Nat.succ_lt_succ hj)
        simpa [visit, h0] using this
      · simpa [visit, h0] using hstop

/-- A buffer without bytes presents no extent. -/
theorem IghtBuffer.extents_of_length_zero (b : IghtBuffer) (h : b.length = 0) :
    b.extents = [] := by
  have hp : evbuffer_peek b.evbuf (-1) [] 0 = (0, []) := by
    have hl : evbuffer_get_length b.evbuf = 0 := h
    simp only [evbuffer_peek, hl]
    cases b.evbuf.chains with
    | nil => simp [evbuffer_peek_loop]
    | cons c cs => simp [evbuffer_peek_loop]
  simp [IghtBuffer.extents, hp]

/-- The bytes the extents of a buffer stand for are its content. -/
theorem IghtBuffer.extents_data_eq (b : IghtBuffer) : extents_data b.extents = b.content := by
  have h : b.extents.map (fun e => e.iov_base.take e.iov_len)
      = b.extents.map evbuffer_iovec.iov_base := by
    apply List.map_congr_left
    intro e he
    rw [b.extents_len e he, List.take_length]
  rw [extents_data, h, IghtBuffer.extents_flatten]

/-- After `k` lines have been read off a buffer that holds nothing else, the buffer is empty
and the results are the lines, each with code 0. -/
theorem IghtBuffer.readlines_lines (maxline : Nat) (pres : List (List Byte)) (b : IghtBuffer)
    (hc : b.content = (pres.map (fun pre => pre ++ [10])).flatten)
    (hno : ∀ pre ∈ pres, (10 : Byte) ∉ pre)
    (hmax : ∀ pre ∈ pres, pre.length + 1 ≤ maxline) :
    (b.readlines true maxline pres.length).1 = pres.map (fun pre => .ok (0, pre ++ [10]))
      ∧ (b.readlines true maxline pres.length).2.content = [] := by
  induction pres generalizing b with
  | nil => exact ⟨rfl, hc⟩
  | cons pre pres ih =>
    have hc' : b.content = pre ++ 10 :: (pres.map (fun pre => pre ++ [10])).flatten := by
      rw [hc]; simp
    have hf : find_lf b.content = some pre.length := by
      rw [hc']; exact find_lf_append pre _ (hno pre (by simp))
    have hgt : ¬ (pre.length + 1 > maxline) := by
      have := hmax pre (by simp)
      omega
    have hr : b.readline true maxline
        = (.ok (0, b.content.take (pre.length + 1)), (b.read 1 true (pre.length + 1)).2) := by
      rw [IghtBuffer.readline_eq, hf]
      simp only [if_neg hgt]
    have htake : b.content.take (pre.length + 1) = pre ++ [10] := by
      rw [hc', show pre ++ 10 :: (pres.map (fun pre => pre ++ [10])).flatten
        = (pre ++ [10]) ++ (pres.map (fun pre => pre ++ [10])).flatten by simp]
      exact List.take_left' (by simp)
    have hdrop : (b.read 1 true (pre.length + 1)).2.content
        = (pres.map (fun pre => pre ++ [10])).flatten := by
      rw [IghtBuffer.read_content, hc',
        show pre ++ 10 :: (pres.map (fun pre => pre ++ [10])).flatten
          = (pre ++ [10]) ++ (pres.map (fun pre => pre ++ [10])).flatten by simp]
      exact List.drop_left' (by simp)
    obtain ⟨h1, h2⟩ := ih (b.read 1 true (pre.length + 1)).2 hdrop
      (fun p hp => hno p (by simp [hp])) (fun p hp => hmax p (by simp [hp]))
    simp only [List.length_cons, IghtBuffer.readlines, hr, htake, List.map_cons]
    exact ⟨by rw [h1], h2⟩

/-! ## The claims -/

/-- C1: for a buffer built by any sequence of `write` calls on a freshly constructed
`IghtBuffer`, and every `n` not greater than the number of bytes written, `read(n)` returns
exactly the first `n` bytes in the order they were written, and `length()` after the call is
`length()` before the call minus `n`. -/
theorem C1_write_then_read (alloc_ok : Bool) (b0 : IghtBuffer) (calls : List WriteCall)
    (n : Nat) (h0 : IghtBuffer.new alloc_ok = .ok b0)
    (hn : n ≤ (IghtBuffer.write_calls calls b0).2.length) :
    ((IghtBuffer.write_calls calls b0).1.read 1 true n).1
        = .ok ((IghtBuffer.write_calls calls b0).2.take n)
      ∧ ((IghtBuffer.write_calls calls b0).2.take n).length = n
      ∧ (IghtBuffer.write_calls calls b0).1.length = (IghtBuffer.write_calls calls b0).2.length
      ∧ ((IghtBuffer.write_calls calls b0).1.read 1 true n).2.length
          = (IghtBuffer.write_calls calls b0).1.length - n := by
  have hb0 := IghtBuffer.new_eq alloc_ok b0 h0
  have hc := IghtBuffer.write_calls_content calls b0
  have hc0 : b0.content = [] := by rw [hb0]; rfl
  rw [hc0, List.nil_append] at hc
  have hlen : (IghtBuffer.write_calls calls b0).1.length
      = (IghtBuffer.write_calls calls b0).2.length := by
    rw [IghtBuffer.length_eq, hc]
  refine ⟨?_, ?_, hlen, ?_⟩
  · rw [IghtBuffer.read_eq, hc]
  · rw [List.length_take]; omega
  · rw [IghtBuffer.read_length, hlen, Nat.min_eq_left hn]

/-- C1 at a concrete run: three calls (the second one fails for lack of memory), then `read(4)`. -/
theorem C1_write_then_read_witness :
    ((IghtBuffer.write_calls
        [⟨some [1, 2, 3], 3, true, 0⟩, ⟨some [9], 1, false, 0⟩, ⟨some [4, 5, 6], 2, true, 1⟩]
        ⟨⟨[]⟩⟩).1.read 1 true 4).1 = .ok [1, 2, 3, 4]
      ∧ ((IghtBuffer.write_calls
        [⟨some [1, 2, 3], 3, true, 0⟩, ⟨some [9], 1, false, 0⟩, ⟨some [4, 5, 6], 2, true, 1⟩]
        ⟨⟨[]⟩⟩).1.read 1 true 4).2.length = 5 - 4 :=
  have h := C1_write_then_read true ⟨⟨[]⟩⟩
    [⟨some [1, 2, 3], 3, true, 0⟩, ⟨some [9], 1, false, 0⟩, ⟨some [4, 5, 6], 2, true, 1⟩] 4
    (by rfl) (by decide)
  ⟨h.1, h.2.2.2⟩

/-- C2: for every buffer, however its bytes are split into extents, and every `upto`,
`read(upto)` returns and removes exactly `min(upto, length())` bytes from the front: the bytes
returned are the first `min(upto, length())` bytes of the content, the bytes left are the
content after that prefix, so no more than `upto` bytes are consumed whatever the extents
hold; `read()` returns the whole content and leaves `length() = 0`. -/
theorem C2_read_upto (b : IghtBuffer) (upto : Nat) :
    (b.read 1 true upto).1 = .ok (b.content.take (min upto b.length))
      ∧ (b.content.take (min upto b.length)).length = min upto b.length
      ∧ (b.read 1 true upto).2.content = b.content.drop (min upto b.length)
      ∧ (b.read 1 true upto).2.length = b.length - min upto b.length
      ∧ (b.read_all 1 true).1 = .ok b.content
      ∧ (b.read_all 1 true).2.length = 0 := by
  have hmin : min upto b.length ≤ b.content.length := by
    rw [IghtBuffer.length_eq]; exact Nat.min_le_right _ _
  have htake : b.content.take (min upto b.length) = b.content.take upto := by
    rw [IghtBuffer.length_eq]
    rcases Nat.le_total upto b.content.length with h | h
    · rw [Nat.min_eq_left h]
    · rw [Nat.min_eq_right h, List.take_of_length_le h, List.take_length]
  have hdrop : b.content.drop (min upto b.length) = b.content.drop upto := by
    rw [IghtBuffer.length_eq]
    rcases Nat.le_total upto b.content.length with h | h
    · rw [Nat.min_eq_left h]
    · rw [Nat.min_eq_right h, List.drop_eq_nil_of_le h, List.drop_eq_nil_of_le (Nat.le_refl _)]
  refine ⟨?_, ?_, ?_, IghtBuffer.read_length b upto, ?_, ?_⟩
  · rw [IghtBuffer.read_eq, htake]
  · rw [List.length_take]; omega
  · rw [IghtBuffer.read_content, hdrop]
  · unfold IghtBuffer.read_all
    rw [IghtBuffer.read_eq, IghtBuffer.length_eq, List.take_length]
  · unfold IghtBuffer.read_all
    rw [IghtBuffer.read_length]; omega

/-- C3: `readn(n)` never returns a partial result.  If `n > length()` it returns the empty
string and leaves the buffer as it is (whatever `T` and the allocator), so that repeating the
call gives the same; if `n <= length()` it returns exactly the first `n` bytes and removes
them; hence a non-empty result implies that `length() >= n` held at call time. -/
theorem C3_readn (b : IghtBuffer) (n : Nat) :
    (∀ (sizeof_T : Nat) (calloc_ok : Bool), n > b.length →
        b.readn sizeof_T calloc_ok n = (.ok [], b)
          ∧ (b.readn sizeof_T calloc_ok n).2.readn sizeof_T calloc_ok n = (.ok [], b))
      ∧ (n ≤ b.length →
          (b.readn 1 true n).1 = .ok (b.content.take n)
            ∧ (b.content.take n).length = n
            ∧ (b.readn 1 true n).2.content = b.content.drop n
            ∧ (b.readn 1 true n).2.length = b.length - n)
      ∧ (∀ out : List Byte, (b.readn 1 true n).1 = .ok out → out ≠ [] →
          n ≤ b.length ∧ out.length = n) := by
  refine ⟨?_, ?_, ?_⟩
  · intro sz co h
    have h1 : b.readn sz co n = (.ok [], b) := by simp [IghtBuffer.readn, h]
    exact ⟨h1, by rw [h1]; exact h1⟩
  · intro h
    have hng : ¬ (n > b.length) := by omega
    have hr : b.readn 1 true n = b.read 1 true n := by simp [IghtBuffer.readn, hng]
    rw [hr]
    refine ⟨by rw [IghtBuffer.read_eq], ?_, IghtBuffer.read_content b n, ?_⟩
    · rw [List.length_take, ← IghtBuffer.length_eq]; omega
    · rw [IghtBuffer.read_length, Nat.min_eq_left h]
  · intro out hout hne
    by_cases h : n > b.length
    · have h1 : b.readn 1 true n = (.ok [], b) := by simp [IghtBuffer.readn, h]
      rw [h1] at hout
      simp only [Except.ok.injEq] at hout
      exact absurd hout.symm hne
    · have hr : b.readn 1 true n = b.read 1 true n := by simp [IghtBuffer.readn, h]
      rw [hr, IghtBuffer.read_eq] at hout
      simp only [Except.ok.injEq] at hout
      refine ⟨by omega, ?_⟩
      rw [← hout, List.length_take, ← IghtBuffer.length_eq]; omega

/-- C3 at a concrete buffer of 5 bytes in three extents: `readn(4)` gives 4 bytes, `readn(6)`
gives nothing and changes nothing. -/
theorem C3_readn_witness :
    (IghtBuffer.readn ⟨⟨[[1, 2], [], [3, 4, 5]]⟩⟩ 1 true 4).1 = .ok [1, 2, 3, 4]
      ∧ IghtBuffer.readn ⟨⟨[[1, 2], [], [3, 4, 5]]⟩⟩ 1 true 6
          = (.ok [], ⟨⟨[[1, 2], [], [3, 4, 5]]⟩⟩) :=
  ⟨((C3_readn ⟨⟨[[1, 2], [], [3, 4, 5]]⟩⟩ 4).2.1 (by decide)).1,
   ((C3_readn ⟨⟨[[1, 2], [], [3, 4, 5]]⟩⟩ 6).1 1 true (by decide)).1⟩

/-- C4: when the content of the buffer is a first line `pre ++ [LF]` (no linefeed in `pre`; a
carriage return before the linefeed belongs to `pre`) followed by `rest`, and the line with
its terminator is at most `maxline` long, `readline(maxline)` returns `(0, line)` with the
line up to and including the terminator, and afterwards the buffer holds exactly `rest`. -/
theorem C4_readline_line (b : IghtBuffer) (maxline : Nat) (pre rest : List Byte)
    (hcontent : b.content = pre ++ 10 :: rest) (hpre : (10 : Byte) ∉ pre)
    (hmax : pre.length + 1 ≤ maxline) :
    (b.readline true maxline).1 = .ok (0, pre ++ [10])
      ∧ (b.readline true maxline).2.content = rest
      ∧ (b.readline true maxline).2.length = b.length - (pre.length + 1) := by
  have hf : find_lf b.content = some pre.length := by
    rw [hcontent]; exact find_lf_append pre rest hpre
  have hgt : ¬ (pre.length + 1 > maxline) := by omega
  have htake : b.content.take (pre.length + 1) = pre ++ [10] := by
    rw [hcontent, show pre ++ 10 :: rest = (pre ++ [10]) ++ rest by simp]
    exact List.take_left' (by simp)
  have hdrop : b.content.drop (pre.length + 1) = rest := by
    rw [hcontent, show pre ++ 10 :: rest = (pre ++ [10]) ++ rest by simp]
    exact List.drop_left' (by simp)
  rw [IghtBuffer.readline_eq, hf]
  simp only [if_neg hgt]
  refine ⟨by rw [htake], by rw [IghtBuffer.read_content, hdrop], ?_⟩
  rw [IghtBuffer.read_length]
  have : pre.length + 1 ≤ b.length := by
    rw [IghtBuffer.length_eq, hcontent]; simp
  omega

/-- C4 on the request line `GET / HTTP/1.0` followed by CR LF, held in two extents, with
`maxline = 64`: the 16-byte line is returned and the buffer is empty afterwards. -/
theorem C4_readline_line_witness :
    (IghtBuffer.readline ⟨⟨[[71, 69, 84, 32, 47, 32, 72], [84, 84, 80, 47, 49, 46, 48, 13, 10]]⟩⟩
        true 64).1
        = .ok (0, [71, 69, 84, 32, 47, 32, 72, 84, 84, 80, 47, 49, 46, 48, 13, 10])
      ∧ (IghtBuffer.readline
          ⟨⟨[[71, 69, 84, 32, 47, 32, 72], [84, 84, 80, 47, 49, 46, 48, 13, 10]]⟩⟩
          true 64).2.content = []
      ∧ (IghtBuffer.readline
          ⟨⟨[[71, 69, 84, 32, 47, 32, 72], [84, 84, 80, 47, 49, 46, 48, 13, 10]]⟩⟩
          true 64).2.length = 16 - 16 :=
  C4_readline_line ⟨⟨[[71, 69, 84, 32, 47, 32, 72], [84, 84, 80, 47, 49, 46, 48, 13, 10]]⟩⟩ 64
    [71, 69, 84, 32, 47, 32, 72, 84, 84, 80, 47, 49, 46, 48, 13] [] (by rfl) (by decide)
    (by decide)

/-- C5: on a buffer whose content has no linefeed (so no line terminator) and
`length() <= maxline`, `readline(maxline)` returns `(0, empty string)` and leaves the buffer
as it is, content and length. -/
theorem C5_readline_wait (b : IghtBuffer) (calloc_ok : Bool) (maxline : Nat)
    (hno : (10 : Byte) ∉ b.content) (hlen : b.length ≤ maxline) :
    b.readline calloc_ok maxline = (.ok (0, []), b) := by
  have hs : evbuffer_search_eol_crlf b.evbuf = (-1, 0) := by
    unfold evbuffer_search_eol_crlf
    rw [show b.evbuf.content = b.content from rfl, find_lf_none b.content hno]
  have hgt : ¬ (b.length > maxline) := by omega
  simp [IghtBuffer.readline, hs, hgt]

/-- C5 on the unterminated text `GET / HTTP/1.0` with `maxline = 64`. -/
theorem C5_readline_wait_witness :
    IghtBuffer.readline ⟨⟨[[71, 69, 84, 32, 47, 32, 72, 84, 84, 80, 47, 49, 46, 48]]⟩⟩ true 64
      = (.ok (0, []), ⟨⟨[[71, 69, 84, 32, 47, 32, 72, 84, 84, 80, 47, 49, 46, 48]]⟩⟩) :=
  C5_readline_wait ⟨⟨[[71, 69, 84, 32, 47, 32, 72, 84, 84, 80, 47, 49, 46, 48]]⟩⟩ true 64
    (by decide) (by decide)

/-- C6: `readline(maxline)` reports oversized input without consuming anything.  It returns
`(-1, empty)` when the content has no linefeed and `length() > maxline`, and `(-2, empty)`
when the first line `pre ++ [LF]` is longer than `maxline`; in both cases the buffer is the
same afterwards, content and length. -/
theorem C6_readline_oversized (b : IghtBuffer) (calloc_ok : Bool) (maxline : Nat) :
    ((10 : Byte) ∉ b.content → b.length > maxline →
        b.readline calloc_ok maxline = (.ok (-1, []), b))
      ∧ (∀ pre rest : List Byte, b.content = pre ++ 10 :: rest → (10 : Byte) ∉ pre →
          pre.length + 1 > maxline → b.readline calloc_ok maxline = (.ok (-2, []), b)) := by
  constructor
  · intro hno hlen
    have hs : evbuffer_search_eol_crlf b.evbuf = (-1, 0) := by
      unfold evbuffer_search_eol_crlf
      rw [show b.evbuf.content = b.content from rfl, find_lf_none b.content hno]
    simp [IghtBuffer.readline, hs, hlen]
  · intro pre rest hcontent hpre hmax
    have hf : find_lf b.evbuf.content = some pre.length := by
      rw [show b.evbuf.content = b.content from rfl, hcontent]
      exact find_lf_append pre rest hpre
    obtain ⟨hpos, heol, hsum⟩ := evbuffer_search_eol_crlf_some b.evbuf pre.length hf
    have hneg : ¬ ((evbuffer_search_eol_crlf b.evbuf).1 < 0) := by omega
    have heol' : ¬ ((evbuffer_search_eol_crlf b.evbuf).2 ≠ 1
        ∧ (evbuffer_search_eol_crlf b.evbuf).2 ≠ 2) := by
      rcases heol with h | h <;> simp [h]
    simp only [IghtBuffer.readline, if_neg hneg, if_neg heol', hsum, if_pos hmax]

/-- C6 with `maxline = 64`: 100 bytes without a terminator give -1, a terminated line of 70
bytes gives -2, and the buffer is untouched both times. -/
theorem C6_readline_oversized_witness :
    IghtBuffer.readline ⟨⟨[List.replicate 60 65, List.replicate 40 66]⟩⟩ true 64
        = (.ok (-1, []), ⟨⟨[List.replicate 60 65, List.replicate 40 66]⟩⟩)
      ∧ IghtBuffer.readline ⟨⟨[List.replicate 68 65, [13, 10, 67]]⟩⟩ true 64
        = (.ok (-2, []), ⟨⟨[List.replicate 68 65, [13, 10, 67]]⟩⟩) :=
  ⟨(C6_readline_oversized ⟨⟨[List.replicate 60 65, List.replicate 40 66]⟩⟩ true 64).1
      (by decide) (by decide),
   (C6_readline_oversized ⟨⟨[List.replicate 68 65, [13, 10, 67]]⟩⟩ true 64).2
      (List.replicate 68 65 ++ [13]) [67] (by rfl) (by decide) (by decide)⟩

/-- C7: for every count and whatever the backend answers to the space reservation (any list
of extents or a failure), the allocator, the generator and the commit, `write_rand(count)`
either returns and has appended exactly `count` bytes, so that `length()` grows by exactly
`count`, or throws one of the exceptions of the source (the loop always ends) and leaves
content and `length()` as they were; `count = 0` appends nothing and returns. -/
theorem C7_write_rand (b : IghtBuffer) (IOV_MAX : Nat) (env : RandEnv) (count : Nat) :
    (((b.write_rand IOV_MAX env count).1 = .ok ()
          ∧ (b.write_rand IOV_MAX env count).2.length = b.length + count
          ∧ ∃ data : List Byte, data.length = count
              ∧ (b.write_rand IOV_MAX env count).2.content = b.content ++ data)
        ∨ (∃ e : Error, (b.write_rand IOV_MAX env count).1 = .error e
            ∧ e ≠ .fuel_exhausted
            ∧ (b.write_rand IOV_MAX env count).2.length = b.length
            ∧ (b.write_rand IOV_MAX env count).2.content = b.content))
      ∧ b.write_rand IOV_MAX env 0 = (.ok (), b) := by
  refine ⟨?_, by simp [IghtBuffer.write_rand]⟩
  rcases IghtBuffer.write_rand_cases b IOV_MAX env count with
    ⟨hok, data, hlen, hcont⟩ | ⟨e, he, hb, hfuel⟩
  · left
    refine ⟨hok, ?_, data, hlen, hcont⟩
    rw [IghtBuffer.length_eq, hcont, List.length_append, hlen, IghtBuffer.length_eq]
  · right
    exact ⟨e, he, hfuel, by rw [hb], by rw [hb]⟩

/-- C7 on a buffer of 4 bytes: the backend hands out extents of 3, 4 and 5 bytes for a request
of 5; the call returns and `length()` is 9. -/
theorem C7_write_rand_witness :
    (IghtBuffer.write_rand ⟨⟨[[71, 69], [84, 13]]⟩⟩ 32
        ⟨true, some [3, 4, 5], fun n => UInt8.ofNat n, true, true⟩ 5).1 = .ok ()
      ∧ (IghtBuffer.write_rand ⟨⟨[[71, 69], [84, 13]]⟩⟩ 32
        ⟨true, some [3, 4, 5], fun n => UInt8.ofNat n, true, true⟩ 5).2.length = 4 + 5 := by
  rcases (C7_write_rand ⟨⟨[[71, 69], [84, 13]]⟩⟩ 32
      ⟨true, some [3, 4, 5], fun n => UInt8.ofNat n, true, true⟩ 5).1 with h | ⟨e, he, _⟩
  · exact ⟨h.1, h.2.1⟩
  · have hok : (IghtBuffer.write_rand ⟨⟨[[71, 69], [84, 13]]⟩⟩ 32
        ⟨true, some [3, 4, 5], fun n => UInt8.ofNat n, true, true⟩ 5).1 = .ok () := by decide
    rw [hok] at he
    exact Except.noConfusion he

/-- C8: for every buffer and every `count <= length()`, `discard(count)` does not fail and
removes exactly the first `count` bytes: the content afterwards is the content without its
first `count` bytes and `length()` is smaller by `count`; `discard()` leaves the buffer
empty. -/
theorem C8_discard (b : IghtBuffer) (count : Nat) (h : count ≤ b.length) :
    (b.discard count).1 = .ok ()
      ∧ (b.discard count).2.content = b.content.drop count
      ∧ (b.discard count).2.length + count = b.length
      ∧ b.discard_all.1 = .ok ()
      ∧ b.discard_all.2.content = []
      ∧ b.discard_all.2.length = 0 := by
  have hcode : ∀ n, (b.discard n).1 = .ok () := by
    intro n; simp [IghtBuffer.discard, evbuffer_drain_code]
  have hcont : ∀ n, (b.discard n).2.content = b.content.drop n := by
    intro n
    simp only [IghtBuffer.discard, evbuffer_drain_code, ne_eq, not_true_eq_false, if_false]
    exact evbuffer_drain_content b.evbuf n
  have hall : b.discard_all.2.content = [] := by
    unfold IghtBuffer.discard_all
    rw [hcont, IghtBuffer.length_eq, List.drop_length]
  refine ⟨hcode count, hcont count, ?_, hcode _, hall, ?_⟩
  · rw [IghtBuffer.length_eq, hcont, List.length_drop]
    rw [IghtBuffer.length_eq] at h ⊢
    omega
  · rw [IghtBuffer.length_eq, hall]; rfl

/-- C8 on a buffer of 5 bytes in three extents: `discard(3)` leaves the last two bytes. -/
theorem C8_discard_witness :
    (IghtBuffer.discard ⟨⟨[[1, 2], [], [3, 4, 5]]⟩⟩ 3).1 = .ok ()
      ∧ (IghtBuffer.discard ⟨⟨[[1, 2], [], [3, 4, 5]]⟩⟩ 3).2.content = [4, 5] :=
  have h := C8_discard ⟨⟨[[1, 2], [], [3, 4, 5]]⟩⟩ 3 (by decide)
  ⟨h.1, h.2.1⟩

/-- C9, as stated, fails when a `discard` asks for more than the buffer holds.  On a fresh
buffer, `write` of 3 bytes, `discard(5)`, `write` of 2 bytes: every call returns, `length()`
is 2 at the end, while the bytes appended (5) less the lengths returned (0) and the counts
discarded (5) come to 0. -/
theorem C9_counterexample :
    IghtBuffer.new true = .ok ⟨⟨[]⟩⟩
      ∧ (IghtBuffer.discard ⟨⟨[[1, 2, 3]]⟩⟩ 5).1 = .ok ()
      ∧ (Op.run [.write (some [1, 2, 3]) 3 true 0, .discard 5, .write (some [4, 5]) 2 true 0]
          ⟨⟨[]⟩⟩).1.length = 2
      ∧ ((Op.run [.write (some [1, 2, 3]) 3 true 0, .discard 5, .write (some [4, 5]) 2 true 0]
          ⟨⟨[]⟩⟩).1.length : Int)
        ≠ ((Op.run [.write (some [1, 2, 3]) 3 true 0, .discard 5, .write (some [4, 5]) 2 true 0]
            ⟨⟨[]⟩⟩).2.appended : Int)
          - (((Op.run [.write (some [1, 2, 3]) 3 true 0, .discard 5,
                .write (some [4, 5]) 2 true 0] ⟨⟨[]⟩⟩).2.returned : Int)
            + ((Op.run [.write (some [1, 2, 3]) 3 true 0, .discard 5,
                .write (some [4, 5]) 2 true 0] ⟨⟨[]⟩⟩).2.discard_counts : Int)) := by
  decide

/-- C9, amended: for every finite sequence of calls (`write`, `write_rand`, `read`, `readn`,
`readline`, `discard`, `foreach`) on a freshly constructed `IghtBuffer`, `length()` after the
sequence equals the bytes appended by the `write` and `write_rand` calls that returned, minus
the lengths of the strings `read`, `readn` and `readline` returned and minus, for every
`discard(count)`, `min(count, length())` at the call.  The same holds for each single call on
any buffer, so a call that throws or returns an empty result changes `length()` by 0. -/
theorem C9_length_accounting (alloc_ok : Bool) (b0 : IghtBuffer) (ops : List Op)
    (h0 : IghtBuffer.new alloc_ok = .ok b0) :
    ((Op.run ops b0).1.length : Int)
        = ((Op.run ops b0).2.appended : Int)
          - (((Op.run ops b0).2.returned : Int) + ((Op.run ops b0).2.discarded : Int))
      ∧ (∀ (op : Op) (b : IghtBuffer),
          ((op.step b).1.length : Int)
            = (b.length : Int) + ((op.step b).2.appended : Int)
              - (((op.step b).2.returned : Int) + ((op.step b).2.discarded : Int)))
      ∧ (∀ (op : Op) (b : IghtBuffer), (op.step b).2 = Tally.zero →
          (op.step b).1.length = b.length) := by
  have hb0 := IghtBuffer.new_eq alloc_ok b0 h0
  have hlen0 : b0.length = 0 := by rw [hb0]; rfl
  refine ⟨?_, ?_, ?_⟩
  · have h := Op.run_balance ops b0
    rw [hlen0] at h
    omega
  · intro op b
    have h := Op.step_balance op b
    omega
  · intro op b hz
    have h := Op.step_balance op b
    rw [hz] at h
    simpa [Tally.zero] using h

/-- C9 (amended) on a fresh buffer: `write` of 3 bytes, `readn(2)`, `discard(5)`, a failing
`write`, `write_rand(4)`, `readline(8)` without a line: `length()` is 4 = 7 - (2 + 1). -/
theorem C9_length_accounting_witness :
    ((Op.run [.write (some [1, 2, 3]) 3 true 0, .readn 1 true 2, .discard 5,
          .write (some [9]) 1 false 0,
          .write_rand 32 ⟨true, some [2, 8], fun n => UInt8.ofNat n, true, false⟩ 4,
          .readline true 8] ⟨⟨[]⟩⟩).1.length : Int) = 7 - (2 + 1) :=
  (C9_length_accounting true ⟨⟨[]⟩⟩ [.write (some [1, 2, 3]) 3 true 0, .readn 1 true 2,
    .discard 5, .write (some [9]) 1 false 0,
    .write_rand 32 ⟨true, some [2, 8], fun n => UInt8.ofNat n, true, false⟩ 4,
    .readline true 8] rfl).1

/-- C10: for a view constructed with `n` extents and every integer index `i`, `operator[](i)`
succeeds if and only if `0 <= i < n`, and then yields the `i`-th extent of the array (what was
stored through it is what it yields); otherwise it fails with an error.  Constructing the
empty view (`n = 0`) succeeds whatever the allocator does, and every index access on it
fails. -/
theorem C10_iovec_index (calloc_ok : Bool) (n : Nat) (v : IghtIovec) (i : Int)
    (hv : IghtIovec.new calloc_ok n = .ok v) :
    ((∃ e, v.operator_idx i = .ok e) ↔ (0 ≤ i ∧ i < (n : Int)))
      ∧ (∀ e, v.operator_idx i = .ok e → ∃ a, v.iov = some a ∧ a.get? i.toNat = some e)
      ∧ (∀ e, 0 ≤ i → i < (n : Int) → (v.store i e).operator_idx i = .ok e)
      ∧ (¬ (0 ≤ i ∧ i < (n : Int)) → ∃ err, v.operator_idx i = .error err)
      ∧ (∃ v0, IghtIovec.new calloc_ok 0 = .ok v0
          ∧ ∀ j : Int, ∃ err, v0.operator_idx j = .error err) := by
  have hempty : ∃ v0, IghtIovec.new calloc_ok 0 = .ok v0
      ∧ ∀ j : Int, ∃ err, v0.operator_idx j = .error err :=
    ⟨{ iov := none, count := 0 }, by simp [IghtIovec.new], fun j => ⟨_, rfl⟩⟩
  by_cases hn : n < 1
  · have hv' : v = { iov := none, count := 0 } := by
      simp only [IghtIovec.new, if_pos hn, Except.ok.injEq] at hv
      exact hv.symm
    subst hv'
    have hno : ¬ (0 ≤ i ∧ i < (n : Int)) := by omega
    refine ⟨?_, ?_, ?_, ?_, hempty⟩
    · constructor
      · rintro ⟨e, he⟩
        simp [IghtIovec.operator_idx] at he
      · intro h; exact absurd h hno
    · intro e he
      simp [IghtIovec.operator_idx] at he
    · intro e h0 h1; exact absurd ⟨h0, h1⟩ hno
    · intro _; exact ⟨_, rfl⟩
  · have hv' : v = { iov := some (List.replicate n evbuffer_iovec.zero), count := n } := by
      cases calloc_ok with
      | false => simp [IghtIovec.new, hn] at hv
      | true =>
        simp only [IghtIovec.new, if_neg hn, Bool.true_eq_false, if_false,
          Except.ok.injEq] at hv
        exact hv.symm
    subst hv'
    have hcond : (i < 0 ∨ i.toNat ≥ n) ↔ ¬ (0 ≤ i ∧ i < (n : Int)) := by omega
    refine ⟨?_, ?_, ?_, ?_, hempty⟩
    · constructor
      · rintro ⟨e, he⟩
        by_contra hno
        simp [IghtIovec.operator_idx, hcond.mpr hno] at he
      · intro h
        have := hcond.not.mpr (not_not.mpr h)
        exact ⟨(List.replicate n evbuffer_iovec.zero).getD i.toNat evbuffer_iovec.zero,
          by simp only [IghtIovec.operator_idx, if_neg this]⟩
    · intro e he
      by_cases hin : (0 ≤ i ∧ i < (n : Int))
      · have hc := hcond.not.mpr (not_not.mpr hin)
        simp only [IghtIovec.operator_idx, if_neg hc, Except.ok.injEq] at he
        refine ⟨_, rfl, ?_⟩
        have hlt : i.toNat < n := by omega
        rw [← he]
        simp [List.getD_eq_getElem?_getD, hlt]
      · simp [IghtIovec.operator_idx, hcond.mpr hin] at he
    · intro e h0 h1
      have hc := hcond.not.mpr (not_not.mpr ⟨h0, h1⟩)
      have hlt : i.toNat < n := by omega
      simp only [IghtIovec.store, Option.map_some', IghtIovec.operator_idx, if_neg hc]
      simp [List.getD_eq_getElem?_getD, hlt]
    · intro hno
      exact ⟨.invalid_index, by simp only [IghtIovec.operator_idx, if_pos (hcond.mpr hno)]⟩

/-- C10 on a view of 3 extents: index 2 is served, and it is the third slot of the array. -/
theorem C10_iovec_index_witness :
    (∃ e, IghtIovec.operator_idx
        { iov := some (List.replicate 3 evbuffer_iovec.zero), count := 3 } 2 = .ok e)
      ∧ (∃ err, IghtIovec.operator_idx
        { iov := some (List.replicate 3 evbuffer_iovec.zero), count := 3 } 3 = .error err)
      ∧ (∃ err, IghtIovec.operator_idx
        { iov := some (List.replicate 3 evbuffer_iovec.zero), count := 3 } (-1) = .error err) :=
  ⟨(C10_iovec_index true 3 _ 2 rfl).1.mpr (by decide),
   (C10_iovec_index true 3 _ 3 rfl).2.2.2.1 (by decide),
   (C10_iovec_index true 3 _ (-1) rfl).2.2.2.1 (by decide)⟩

/-- C11: for every payload (raw bytes with count, string, buffer, shared buffer), every state of
the transport and every behaviour of the wrapped connection, `send` makes exactly one call on
the wrapped connection, the `send` with the identical payload, reports what that call reports,
and changes nothing of the wrapper itself: callback slots, closed flag, proxy endpoint,
settings and buffer stay as they are. -/
theorem C11_send_forwarded {C : Type} (react : ConnReact C) (data : Payload) (s : Socks5 C) :
    (s.send react data).2.conn_calls = s.conn_calls ++ [.send data]
      ∧ (s.send react data).1 = (react (.send data) s.conn).1
      ∧ (s.send react data).2.conn = (react (.send data) s.conn).2
      ∧ (s.send react data).2.on_connect_fn = s.on_connect_fn
      ∧ (s.send react data).2.on_data_fn = s.on_data_fn
      ∧ (s.send react data).2.on_flush_fn = s.on_flush_fn
      ∧ (s.send react data).2.isclosed = s.isclosed
      ∧ (s.send react data).2.proxy_address = s.proxy_address
      ∧ (s.send react data).2.proxy_port = s.proxy_port
      ∧ (s.send react data).2.settings = s.settings
      ∧ (s.send react data).2.buffer = s.buffer := by
  unfold Socks5.send Socks5.call_conn
  exact ⟨rfl, rfl, rfl, rfl, rfl, rfl, rfl, rfl, rfl, rfl, rfl⟩

/-- C12: one slot per event kind, replaced on registration.  For each of `on_connect`,
`on_data` and `on_flush`, registering `f` and then `g` leaves `g` in the slot; a registration
changes no other slot, nor the closed flag, nor the proxy endpoint, and makes no call on the
wrapped connection (so it installs nothing there) and leaves its state alone. -/
theorem C12_single_slot {C : Type} (f g : Callback) (s : Socks5 C) :
    ((s.on_connect f).on_connect g).on_connect_fn = g
      ∧ ((s.on_data f).on_data g).on_data_fn = g
      ∧ ((s.on_flush f).on_flush g).on_flush_fn = g
      ∧ ((s.on_connect f).on_data_fn = s.on_data_fn
          ∧ (s.on_connect f).on_flush_fn = s.on_flush_fn
          ∧ (s.on_connect f).isclosed = s.isclosed
          ∧ (s.on_connect f).proxy_address = s.proxy_address
          ∧ (s.on_connect f).proxy_port = s.proxy_port
          ∧ (s.on_connect f).conn_calls = s.conn_calls
          ∧ (s.on_connect f).conn = s.conn)
      ∧ ((s.on_data f).on_connect_fn = s.on_connect_fn
          ∧ (s.on_data f).on_flush_fn = s.on_flush_fn
          ∧ (s.on_data f).isclosed = s.isclosed
          ∧ (s.on_data f).proxy_address = s.proxy_address
          ∧ (s.on_data f).proxy_port = s.proxy_port
          ∧ (s.on_data f).conn_calls = s.conn_calls
          ∧ (s.on_data f).conn = s.conn)
      ∧ ((s.on_flush f).on_connect_fn = s.on_connect_fn
          ∧ (s.on_flush f).on_data_fn = s.on_data_fn
          ∧ (s.on_flush f).isclosed = s.isclosed
          ∧ (s.on_flush f).proxy_address = s.proxy_address
          ∧ (s.on_flush f).proxy_port = s.proxy_port
          ∧ (s.on_flush f).conn_calls = s.conn_calls
          ∧ (s.on_flush f).conn = s.conn) := by
  unfold Socks5.on_connect Socks5.on_data Socks5.on_flush
  exact ⟨rfl, rfl, rfl, ⟨rfl, rfl, rfl, rfl, rfl, rfl, rfl⟩, ⟨rfl, rfl, rfl, rfl, rfl, rfl, rfl⟩,
    ⟨rfl, rfl, rfl, rfl, rfl, rfl, rfl⟩⟩

/-- C13: the closed flag is monotonic.  It is false on a fresh instance, `close()` sets it, and
after a `close()` it is still set after every sequence of member calls (`on_*`, `emit_*`,
`send`, `set_timeout`, `clear_timeout`, `close`, `socks5_address`, `socks5_port`), whatever the
wrapped connection does on them: no member call resets it. -/
theorem C13_isclosed_monotonic {C : Type} (react : ConnReact C) (s : Socks5 C)
    (ops : List Socks5Op) :
    (∀ (conn : C) (settings : Settings) (proxy_address proxy_port : String),
        (Socks5.init conn settings proxy_address proxy_port).isclosed = false)
      ∧ (s.close react).2.isclosed = true
      ∧ (Socks5Op.run react ops (s.close react).2).isclosed = true
      ∧ (∀ op : Socks5Op, s.isclosed = true → (op.step react s).isclosed = true) := by
  refine ⟨fun _ _ _ _ => rfl, rfl, ?_, fun op h => ?_⟩
  · exact Socks5Op.run_isclosed react ops _ rfl
  · exact Socks5Op.step_isclosed react op s h

/-- C13 on a fresh instance whose connection accepts every call: after `close()`, then a
registration, a `send`, an `emit_error` and a second `close()`, the flag is set. -/
theorem C13_isclosed_monotonic_witness :
    (Socks5Op.run (fun _ (c : Unit) => (.ok (), c))
        [.close, .on_connect (some 1), .send (.string [1, 2]), .emit_error .TimeoutError, .close]
        (Socks5.init () [] "127.0.0.1" "9050")).isclosed = true :=
  (C13_isclosed_monotonic (fun _ (c : Unit) => (.ok (), c)) (Socks5.init () [] "127.0.0.1" "9050")
    [.on_connect (some 1), .send (.string [1, 2]), .emit_error .TimeoutError, .close]).2.2.1

/-- C14: after `close()` has been called on a Socks5 transport (over a connection that keeps
the transport contract of the spec), and whatever member calls follow, every `send`, of any
payload kind, fails: it reports an error, and nothing is accepted for transmission, neither by
this `send` nor by any call since the `close()`. -/
theorem C14_send_after_close (s : Socks5 Connection) (ops : List Socks5Op) (data : Payload) :
    ((Socks5Op.run Connection.react ops (s.close Connection.react).2).send Connection.react
        data).1 = .error .ProgrammerError
      ∧ ((Socks5Op.run Connection.react ops (s.close Connection.react).2).send Connection.react
        data).2.conn.sent = (Socks5Op.run Connection.react ops (s.close Connection.react).2).conn.sent
      ∧ ((Socks5Op.run Connection.react ops (s.close Connection.react).2).send Connection.react
        data).2.conn.sent = s.conn.sent := by
  have hclosed : (s.close Connection.react).2.conn.closed = true := rfl
  have hsent : (s.close Connection.react).2.conn.sent = s.conn.sent := rfl
  obtain ⟨h1, h2⟩ := Socks5Op.run_conn_closed ops _ hclosed
  have hsend : ∀ t : Socks5 Connection, t.conn.closed = true →
      (t.send Connection.react data).1 = .error .ProgrammerError
        ∧ (t.send Connection.react data).2.conn.sent = t.conn.sent := by
    intro t ht
    simp [Socks5.send, Socks5.call_conn, Connection.react, ht]
  obtain ⟨h3, h4⟩ := hsend _ h1
  exact ⟨h3, h4, h4.trans (h2.trans hsent)⟩

/-- C15, as stated, fails: `close()` does not look at the closed flag, so a second `close()`
calls `close()` on the wrapped connection once more.  On a fresh instance, the calls made on
the connection after two `close()` are two, after one `close()` one, and the two instances
differ. -/
theorem C15_counterexample :
    ((Socks5.init () [] "127.0.0.1" "9050").close (fun _ (c : Unit) => (.ok (), c))).2.conn_calls
        = [.close]
      ∧ ((((Socks5.init () [] "127.0.0.1" "9050").close
            (fun _ (c : Unit) => (.ok (), c))).2).close
            (fun _ (c : Unit) => (.ok (), c))).2.conn_calls = [.close, .close]
      ∧ ((((Socks5.init () [] "127.0.0.1" "9050").close
            (fun _ (c : Unit) => (.ok (), c))).2).close (fun _ (c : Unit) => (.ok (), c))).2
          ≠ ((Socks5.init () [] "127.0.0.1" "9050").close
            (fun _ (c : Unit) => (.ok (), c))).2 := by
  refine ⟨rfl, rfl, ?_⟩
  intro h
  have h2 := congrArg (fun t : Socks5 Unit => t.conn_calls.length) h
  exact absurd h2 (by decide)

/-- C15, amended: `close()` is idempotent on the wrapper's own fields.  For every state and
every behaviour of the wrapped connection, after a second `close()` the closed flag, the
callback slots, the settings, the buffer and the proxy endpoint are as after the first one;
the second call makes exactly one further call on the wrapped connection, its `close()`, and
the connection is in the state this call leaves.  When `close()` of the connection changes
nothing on a connection closed before, the two instances differ in the record of calls only. -/
theorem C15_close_twice {C : Type} (react : ConnReact C) (s : Socks5 C) :
    ((s.close react).2.close react).2.isclosed = true
      ∧ (s.close react).2.isclosed = true
      ∧ ((s.close react).2.close react).2.on_connect_fn = (s.close react).2.on_connect_fn
      ∧ ((s.close react).2.close react).2.on_data_fn = (s.close react).2.on_data_fn
      ∧ ((s.close react).2.close react).2.on_flush_fn = (s.close react).2.on_flush_fn
      ∧ ((s.close react).2.close react).2.settings = (s.close react).2.settings
      ∧ ((s.close react).2.close react).2.buffer = (s.close react).2.buffer
      ∧ ((s.close react).2.close react).2.proxy_address = (s.close react).2.proxy_address
      ∧ ((s.close react).2.close react).2.proxy_port = (s.close react).2.proxy_port
      ∧ ((s.close react).2.close react).2.conn_calls = (s.close react).2.conn_calls ++ [.close]
      ∧ ((s.close react).2.close react).2.conn = (react .close (s.close react).2.conn).2
      ∧ ((react .close (react .close s.conn).2).2 = (react .close s.conn).2 →
          { ((s.close react).2.close react).2 with conn_calls := (s.close react).2.conn_calls }
            = (s.close react).2) := by
  refine ⟨rfl, rfl, rfl, rfl, rfl, rfl, rfl, rfl, rfl, rfl, rfl, ?_⟩
  intro h
  simp only [Socks5.close, Socks5.call_conn]
  rw [h]

/-- C15 (amended) over a connection whose state is its closed flag and whose `close()` sets
it: after a second `close()` the instance is as after the first, up to the record of calls. -/
theorem C15_close_twice_witness :
    { (((Socks5.init false [] "127.0.0.1" "9050").close
          (fun call (c : Bool) => (.ok (), c || decide (call = .close)))).2.close
          (fun call (c : Bool) => (.ok (), c || decide (call = .close)))).2 with
        conn_calls := [.close] }
      = ((Socks5.init false [] "127.0.0.1" "9050").close
          (fun call (c : Bool) => (.ok (), c || decide (call = .close)))).2 :=
  (C15_close_twice (fun call (c : Bool) => (.ok (), c || decide (call = .close)))
    (Socks5.init false [] "127.0.0.1" "9050")).2.2.2.2.2.2.2.2.2.2.2 rfl

/-- C16: `socks5_address()` and `socks5_port()` return the proxy host and port the instance was
constructed with, regardless of state: after every sequence of member calls (registrations,
`emit_*`, `send`, `set_timeout`, `clear_timeout`, `close`), whatever the wrapped connection
does on them, both return what they returned before the sequence, and on a fresh instance they
return the endpoint the constructor stored. -/
theorem C16_proxy_endpoint {C : Type} (react : ConnReact C) (s : Socks5 C)
    (ops : List Socks5Op) :
    (Socks5Op.run react ops s).socks5_address = s.socks5_address
      ∧ (Socks5Op.run react ops s).socks5_port = s.socks5_port
      ∧ (∀ (conn : C) (settings : Settings) (proxy_address proxy_port : String),
          (Socks5Op.run react ops
              (Socks5.init conn settings proxy_address proxy_port)).socks5_address = proxy_address
            ∧ (Socks5Op.run react ops
              (Socks5.init conn settings proxy_address proxy_port)).socks5_port = proxy_port) := by
  obtain ⟨h1, h2⟩ := Socks5Op.run_proxy react ops s
  refine ⟨h1, h2, fun conn settings a p => ?_⟩
  obtain ⟨h3, h4⟩ := Socks5Op.run_proxy react ops (Socks5.init conn settings a p)
  exact ⟨h3, h4⟩

/-- C17: the handshake succeeds (handshake as the spec describes it).  On a transport that
waits for its connection, with the caller's `on_connect` callback `f` registered: when the
connection signals connect the greeting `05 01 00` goes out; when it answers `05 00` the
CONNECT request goes out; when it answers with version 5, status 0 and a valid bound-address
field the state is `Connected`.  The wrapper invokes `f` exactly once, on the last of the
three events and not before, it invokes no `on_data` callback, and the connection invokes no
callback at all. -/
theorem C17_handshake_success (t : Socks5Transport) (f : Nat) (rsv : Byte) (bound : List Byte)
    (hs : t.state = .AwaitingUnderlyingConnect) (hf : t.base.on_connect_fn = some f)
    (hbuf : t.base.buffer.content = []) (hopen : t.base.conn.closed = false)
    (hbound : valid_bound_address bound = true) :
    (Socks5Transport.run [.connect] t).base.conn.sent = t.base.conn.sent ++ [.string [5, 1, 0]]
      ∧ (Socks5Transport.run [.connect] t).upcalls = t.upcalls
      ∧ (Socks5Transport.run [.connect, .data [5, 0]] t).base.conn.sent
          = t.base.conn.sent ++ [.string [5, 1, 0], .string t.connect_request]
      ∧ (Socks5Transport.run [.connect, .data [5, 0]] t).upcalls = t.upcalls
      ∧ (Socks5Transport.run [.connect, .data [5, 0], .data (5 :: 0 :: rsv :: bound)] t).upcalls
          = t.upcalls ++ [.on_connect (some f)]
      ∧ (Socks5Transport.run [.connect, .data [5, 0], .data (5 :: 0 :: rsv :: bound)] t).state
          = .Connected
      ∧ (Socks5Transport.run [.connect, .data [5, 0], .data (5 :: 0 :: rsv :: bound)]
          t).base.conn.invoked = t.base.conn.invoked
      ∧ (Socks5Transport.run [.connect, .data [5, 0], .data (5 :: 0 :: rsv :: bound)]
          t).base.conn.sent = t.base.conn.sent ++ [.string [5, 1, 0], .string t.connect_request] := by
  have e1 := Socks5Transport.event_connect t hs hopen
  have s1 : (t.event .connect).state = .HandshakeGreetingSent := by rw [e1]
  have b1 : (t.event .connect).base.buffer.content = [] := by rw [e1]; exact hbuf
  have o1 : (t.event .connect).base.conn.closed = false := by rw [e1]; exact hopen
  have u1 : (t.event .connect).upcalls = t.upcalls := by rw [e1]
  have f1 : (t.event .connect).base.on_connect_fn = some f := by rw [e1]; exact hf
  have c1 : (t.event .connect).base.conn.sent = t.base.conn.sent ++ [.string [5, 1, 0]] := by
    rw [e1]; rfl
  have i1 : (t.event .connect).base.conn.invoked = t.base.conn.invoked := by rw [e1]
  have r1 : (t.event .connect).connect_request = t.connect_request := by rw [e1]; rfl
  have e2 := Socks5Transport.event_method_ok (t.event .connect) [5, 0] s1
    (by rw [b1]; rfl) o1
  have s2 : ((t.event .connect).event (.data [5, 0])).state = .HandshakeRequestSent := by
    rw [e2]
  have b2 : ((t.event .connect).event (.data [5, 0])).base.buffer.content = [] := by
    rw [e2]
    show (((t.event .connect).base.buffer.write (some [5, 0]) [5, 0].length true 0).2.read 1
      true 2).2.content = []
    rw [IghtBuffer.read_content, IghtBuffer.write_ok_content, b1]
    rfl
  have u2 : ((t.event .connect).event (.data [5, 0])).upcalls = t.upcalls := by
    rw [e2]; exact u1
  have f2 : ((t.event .connect).event (.data [5, 0])).base.on_connect_fn = some f := by
    rw [e2]; exact f1
  have c2 : ((t.event .connect).event (.data [5, 0])).base.conn.sent
      = t.base.conn.sent ++ [.string [5, 1, 0], .string t.connect_request] := by
    rw [e2]
    simp [c1, r1]
  have i2 : ((t.event .connect).event (.data [5, 0])).base.conn.invoked
      = t.base.conn.invoked := by
    rw [e2]; exact i1
  obtain ⟨s3, u3, c3, _, _, _, _⟩ := Socks5Transport.event_reply_ok
    ((t.event .connect).event (.data [5, 0])) (5 :: 0 :: rsv :: bound) rsv bound s2
    (by rw [b2]; rfl) hbound
  rw [f2, u2] at u3
  simp only [Socks5Transport.run]
  refine ⟨c1, u1, c2, u2, ?_, s3, ?_, ?_⟩
  · rw [u3]; rfl
  · rw [c3]; exact i2
  · rw [c3]; exact c2

/-- C17 on a transport constructed from its settings, with `on_connect` and `on_data`
registered, a domain name as target and an IPv4 bound address in the reply: `on_connect` is
the one callback invoked. -/
theorem C17_handshake_success_witness :
    (Socks5Transport.run [.connect, .data [5, 0], .data [5, 0, 0, 1, 10, 0, 0, 1, 4, 56]]
        { base := ((Socks5.init (Connection.mk none none none none none false none [] []) []
            "127.0.0.1" "9050").on_connect (some 1)).on_data (some 2),
          state := .AwaitingUnderlyingConnect, target_type := 3,
          target_address := [3, 97, 98, 99], target_port := 80, bound_length := none,
          upcalls := [] }).upcalls = [.on_connect (some 1)]
      ∧ (Socks5Transport.run [.connect, .data [5, 0], .data [5, 0, 0, 1, 10, 0, 0, 1, 4, 56]]
        { base := ((Socks5.init (Connection.mk none none none none none false none [] []) []
            "127.0.0.1" "9050").on_connect (some 1)).on_data (some 2),
          state := .AwaitingUnderlyingConnect, target_type := 3,
          target_address := [3, 97, 98, 99], target_port := 80, bound_length := none,
          upcalls := [] }).state = .Connected :=
  have h := C17_handshake_success
    { base := ((Socks5.init (Connection.mk none none none none none false none [] []) []
        "127.0.0.1" "9050").on_connect (some 1)).on_data (some 2),
      state := .AwaitingUnderlyingConnect, target_type := 3,
      target_address := [3, 97, 98, 99], target_port := 80, bound_length := none,
      upcalls := [] } 1 0 [1, 10, 0, 0, 1, 4, 56] rfl rfl rfl rfl (by decide)
  ⟨h.2.2.2.2.1, h.2.2.2.2.2.1⟩

/-- C18: the handshake fails (handshake as the spec describes it).  On a transport that waits
for its connection, with the caller's `on_error` callback `e` registered: when the connection
signals connect and then answers the greeting with `05 FF`, a protocol error is emitted and
`e` is invoked with it, and the state is `Closed`.  Whatever events follow, the wrapper
invokes no callback, so never `on_connect`, and the connection invokes nothing but the callback
registered for errors. -/
theorem C18_handshake_no_method (t : Socks5Transport) (e : Nat) (later : List TransportEvent)
    (hs : t.state = .AwaitingUnderlyingConnect) (hbuf : t.base.buffer.content = [])
    (herr : t.base.conn.on_error_fn = some e) :
    (Socks5Transport.run [.connect, .data [5, 255]] t).base.conn.invoked
        = t.base.conn.invoked ++ [.on_error (some e) .ProtocolError]
      ∧ (Socks5Transport.run [.connect, .data [5, 255]] t).state = .Closed
      ∧ (Socks5Transport.run ([.connect, .data [5, 255]] ++ later) t).state = .Closed
      ∧ (Socks5Transport.run ([.connect, .data [5, 255]] ++ later) t).upcalls = t.upcalls
      ∧ (∀ u ∈ (Socks5Transport.run ([.connect, .data [5, 255]] ++ later) t).base.conn.invoked,
          u ∈ t.base.conn.invoked ∨ ∃ err, u = .on_error (some e) err) := by
  obtain ⟨s1, u1, b1, i1, r1⟩ := Socks5Transport.event_connect_frame t hs
  obtain ⟨s2, u2, i2, r2, _⟩ := Socks5Transport.event_method_reject (t.event .connect)
    [5, 255] 5 255 e s1 (by rw [b1, hbuf]; rfl) (by decide) (by rw [r1]; exact herr)
  obtain ⟨s3, u3, _, i3⟩ := Socks5Transport.run_closed later
    ((t.event .connect).event (.data [5, 255])) s2
  have hrun : Socks5Transport.run ([.connect, .data [5, 255]] ++ later) t
      = Socks5Transport.run later ((t.event .connect).event (.data [5, 255])) := rfl
  have hrun2 : Socks5Transport.run [.connect, .data [5, 255]] t
      = (t.event .connect).event (.data [5, 255]) := rfl
  rw [hrun, hrun2]
  refine ⟨by rw [i2, i1], s2, s3, by rw [u3, u2, u1], ?_⟩
  intro u hu
  rcases i3 u hu with h | ⟨err, h⟩
  · rw [i2, i1] at h
    simp only [List.mem_append, List.mem_singleton] at h
    rcases h with h | h
    · exact Or.inl h
    · exact Or.inr ⟨_, h⟩
  · rw [r2] at h
    exact Or.inr ⟨err, h⟩

/-- C18 on a transport whose caller registered `on_error` and `on_connect` through the
members of the header: after `05 FF`, a full successful reply and a second connect change
nothing, `on_connect` is not invoked. -/
theorem C18_handshake_no_method_witness :
    (Socks5Transport.run
        ([.connect, .data [5, 255]] ++ [.data [5, 0], .data [5, 0, 0, 1, 10, 0, 0, 1, 4, 56],
          .connect])
        { base := (((Socks5.init (Connection.mk none none none none none false none [] []) []
            "127.0.0.1" "9050").on_connect (some 1)).on_error Connection.react (some 7)).2,
          state := .AwaitingUnderlyingConnect, target_type := 3,
          target_address := [3, 97, 98, 99], target_port := 80, bound_length := none,
          upcalls := [] }).upcalls = []
      ∧ (Socks5Transport.run [.connect, .data [5, 255]]
        { base := (((Socks5.init (Connection.mk none none none none none false none [] []) []
            "127.0.0.1" "9050").on_connect (some 1)).on_error Connection.react (some 7)).2,
          state := .AwaitingUnderlyingConnect, target_type := 3,
          target_address := [3, 97, 98, 99], target_port := 80, bound_length := none,
          upcalls := [] }).base.conn.invoked = [.on_error (some 7) .ProtocolError] :=
  have h := C18_handshake_no_method
    { base := (((Socks5.init (Connection.mk none none none none none false none [] []) []
        "127.0.0.1" "9050").on_connect (some 1)).on_error Connection.react (some 7)).2,
      state := .AwaitingUnderlyingConnect, target_type := 3,
      target_address := [3, 97, 98, 99], target_port := 80, bound_length := none,
      upcalls := [] } 7 [.data [5, 0], .data [5, 0, 0, 1, 10, 0, 0, 1, 4, 56], .connect]
    rfl rfl rfl
  ⟨h.2.2.2.1, h.1⟩

/-- C19: `foreach` presents the extents of the buffer to the visitor front to back.  The
extents it calls the visitor on are an initial segment of the extents (each at most once, in
order); it stops right after the first extent on which the visitor returns `false`; it visits
nothing on a buffer without bytes; when the visitor always continues it visits all extents, and
the bytes they stand for are the content of the buffer.  It never fails with "Invalid index"
or "Iovec is null", whatever the allocator does, and a call leaves the buffer as it is. -/
theorem C19_foreach {σ : Type} (b : IghtBuffer) (fn : evbuffer_iovec → σ → Bool × σ) (s : σ) :
    b.foreach true (trace_visitor fn) (s, [])
        = .ok (visit fn b.extents s, visited fn b.extents s)
      ∧ b.foreach true fn s = .ok (visit fn b.extents s)
      ∧ (∃ k, k ≤ b.extents.length ∧ visited fn b.extents s = b.extents.take k)
      ∧ (∀ (k : Nat) (hk : k < b.extents.length),
          (∀ j (hj : j < k),
            (fn (b.extents.get ⟨j, Nat.lt_trans hj hk⟩) (visit fn (b.extents.take j) s)).1
              = true) →
          (fn (b.extents.get ⟨k, hk⟩) (visit fn (b.extents.take k) s)).1 = false →
          visited fn b.extents s = b.extents.take (k + 1))
      ∧ (b.length = 0 → visited fn b.extents s = [])
      ∧ ((∀ e s, (fn e s).1 = true) →
          visited fn b.extents s = b.extents
            ∧ extents_data (visited fn b.extents s) = b.content)
      ∧ (∀ calloc_ok : Bool,
          b.foreach calloc_ok fn s ≠ .error .invalid_index
            ∧ b.foreach calloc_ok fn s ≠ .error .iovec_is_null)
      ∧ (∀ calloc_ok : Bool, (Op.step (.foreach σ calloc_ok fn s) b).1 = b) := by
  refine ⟨?_, IghtBuffer.foreach_eq b fn s, visited_prefix fn b.extents s,
    fun k hk hbefore hstop => visited_stop fn b.extents s k hk hbefore hstop, ?_, ?_, ?_, ?_⟩
  · rw [IghtBuffer.foreach_eq, visit_trace_visitor]
    rfl
  · intro h
    rw [IghtBuffer.extents_of_length_zero b h]
    rfl
  · intro hfn
    have hv := visited_all fn hfn b.extents s
    exact ⟨hv, by rw [hv, IghtBuffer.extents_data_eq]⟩
  · intro calloc_ok
    rcases IghtBuffer.foreach_cases b calloc_ok fn s with h | h <;> rw [h] <;>
      exact ⟨by simp, by simp⟩
  · intro calloc_ok
    simp only [Op.step]
    split <;> rfl

/-- C19 on a buffer of 5 bytes in three chains, with a visitor that adds up the lengths and
always continues: all three extents are visited and they stand for the 5 bytes. -/
theorem C19_foreach_witness :
    visited (fun e (n : Nat) => (true, n + e.iov_len))
        (IghtBuffer.extents ⟨⟨[[1, 2], [3], [4, 5]]⟩⟩) 0
        = IghtBuffer.extents ⟨⟨[[1, 2], [3], [4, 5]]⟩⟩
      ∧ extents_data (visited (fun e (n : Nat) => (true, n + e.iov_len))
          (IghtBuffer.extents ⟨⟨[[1, 2], [3], [4, 5]]⟩⟩) 0) = [1, 2, 3, 4, 5] :=
  (C19_foreach ⟨⟨[[1, 2], [3], [4, 5]]⟩⟩ (fun e (n : Nat) => (true, n + e.iov_len))
    0).2.2.2.2.2.1 (fun _ _ => rfl)

/-- C20: repeated `readline` splits the input without losing or reordering bytes.  When the
content of the buffer is the concatenation of `k` lines, each ending with a linefeed, holding
no other linefeed and at most `maxline` long with its terminator, `k` calls of
`readline(maxline)` in a row return code 0 with exactly those lines in order; the buffer is
then empty, and one further call returns `(0, empty)`. -/
theorem C20_readline_repeated (b : IghtBuffer) (maxline : Nat) (pres : List (List Byte))
    (hc : b.content = (pres.map (fun pre => pre ++ [10])).flatten)
    (hno : ∀ pre ∈ pres, (10 : Byte) ∉ pre)
    (hmax : ∀ pre ∈ pres, pre.length + 1 ≤ maxline) :
    (b.readlines true maxline pres.length).1 = pres.map (fun pre => .ok (0, pre ++ [10]))
      ∧ (b.readlines true maxline pres.length).2.content = []
      ∧ (b.readlines true maxline pres.length).2.length = 0
      ∧ (b.readlines true maxline pres.length).2.readline true maxline
          = (.ok (0, []), (b.readlines true maxline pres.length).2) := by
  obtain ⟨h1, h2⟩ := IghtBuffer.readlines_lines maxline pres b hc hno hmax
  have hlen : (b.readlines true maxline pres.length).2.length = 0 := by
    rw [IghtBuffer.length_eq, h2]; rfl
  refine ⟨h1, h2, hlen, ?_⟩
  rw [IghtBuffer.readline_eq, h2]
  have hgt : ¬ ((b.readlines true maxline pres.length).2.length > maxline) := by omega
  simp [find_lf, hgt]

/-- C20 on a request of two lines ending in CR LF and an empty line, held in two chains that
cut through the second line, with `maxline = 16`. -/
theorem C20_readline_repeated_witness :
    (IghtBuffer.readlines true 16 3
        ⟨⟨[[71, 69, 84, 32, 47, 13, 10, 72, 111], [115, 116, 58, 32, 97, 13, 10, 10]]⟩⟩).1
      = [.ok (0, [71, 69, 84, 32, 47, 13, 10]), .ok (0, [72, 111, 115, 116, 58, 32, 97, 13, 10]),
          .ok (0, [10])] :=
  (C20_readline_repeated
    ⟨⟨[[71, 69, 84, 32, 47, 13, 10, 72, 111], [115, 116, 58, 32, 97, 13, 10, 10]]⟩⟩ 16
    [[71, 69, 84, 32, 47, 13], [72, 111, 115, 116, 58, 32, 97, 13], []] (by rfl) (by decide)
    (by decide)).1

end Libight
